import Mathlib

/-!
Verification of the CTIW compiler core (lexer, parser, code generator)
against its design specification. The TypeScript sources
(`src/lib/parser/lexer.ts`, `src/lib/parser/parser.ts`,
`src/lib/parser/codegen.ts`) are shallowly embedded: JavaScript strings
become `List Char`, class instance state becomes explicit state records
threaded through the functions, and each source function becomes a Lean
definition of the same name. JavaScript truthiness on strings
(`undefined`/`''` are falsy) is modelled explicitly where the source
relies on it.
-/

namespace CTIW

/-- Source text, modelled as a list of characters. -/
abbrev Str := List Char

/-- Abbreviation turning a Lean string literal into the `List Char` model. -/
def toL (s : String) : Str := s.toList

/-! ## Character classes (lexer.ts `isAlpha`, `isDigit`, `isHexDigit`,
`isAlphaNumericOrHyphen`; plus the whitespace classes used by
`skipWhitespace` and JavaScript `trim`/`trimStart`). -/

/-- lexer.ts `isAlpha`: ASCII letter. -/
def isAlpha (c : Char) : Bool :=
  ('a' ≤ c && c ≤ 'z') || ('A' ≤ c && c ≤ 'Z')

/-- lexer.ts `isDigit`. -/
def isDigit (c : Char) : Bool :=
  '0' ≤ c && c ≤ '9'

/-- lexer.ts `isHexDigit`. -/
def isHexDigit (c : Char) : Bool :=
  isDigit c || ('a' ≤ c && c ≤ 'f') || ('A' ≤ c && c ≤ 'F')

/-- lexer.ts `isAlphaNumericOrHyphen`: letter, digit, `-` or `_`. -/
def isAlphaNumericOrHyphen (c : Char) : Bool :=
  isAlpha c || isDigit c || c = '-' || c = '_'

/-- Space or tab, the characters `skipWhitespace` and the attribute
lookaheads treat as discardable within a line. -/
def isSpaceTab (c : Char) : Bool :=
  c = ' ' || c = '\t'

/-- The ASCII whitespace trimmed by JavaScript `trim`/`trimStart`
(the sources only ever contain ASCII whitespace). -/
def isJsWS (c : Char) : Bool :=
  c = ' ' || c = '\t' || c = '\n' || c = '\r'

/-! ## Generic string helpers mirroring the JavaScript string methods the
sources use (`trim`, `trimStart`, `split`, `includes`, `startsWith`). -/

/-- JavaScript `String.prototype.trimStart`. -/
def trimStartStr (s : Str) : Str := s.dropWhile isJsWS

/-- JavaScript `String.prototype.trim`. -/
def trimStr (s : Str) : Str :=
  ((s.dropWhile isJsWS).reverse.dropWhile isJsWS).reverse

/-- JavaScript `String.prototype.split` on a single separator character
(as in parser.ts `source.split('\n')`). Always returns at least one piece. -/
def splitOnChar (sep : Char) : Str → List Str
  | [] => [[]]
  | c :: rest =>
    match splitOnChar sep rest with
    | [] => [[]]
    | g :: gs => if c = sep then [] :: g :: gs else (c :: g) :: gs

/-- Whether `pat` occurs at the start of `s` (JavaScript `startsWith`). -/
def startsWithStr (pat s : Str) : Bool :=
  s.take pat.length = pat

/-- Whether `pat` occurs anywhere in `s` (JavaScript `includes`). -/
def containsStr (pat : Str) : Str → Bool
  | [] => pat.isEmpty
  | c :: rest => startsWithStr pat (c :: rest) || containsStr pat rest

/-- Join pieces with a separator (JavaScript `Array.prototype.join`). -/
def strJoin (sep : Str) : List Str → Str
  | [] => []
  | [p] => p
  | p :: rest => p ++ sep ++ strJoin sep rest

/-- ASCII lower-casing of one character (JavaScript `toLowerCase` on the
ASCII range the grammar uses). -/
def charToLower (c : Char) : Char :=
  if 'A' ≤ c && c ≤ 'Z' then Char.ofNat (c.toNat + 32) else c

/-- JavaScript `String.prototype.toLowerCase` (ASCII model). -/
def toLowerStr (s : Str) : Str := s.map charToLower

/-! ## Lexer (lexer.ts)

The `Lexer` class keeps `pos`, `line`, `column`, `tokens`, `errors`,
`inValueContext` and `atStatementStart` as instance fields. `pos` becomes
"the remaining input list"; the rest becomes `LexState`. `atStatementStart`
is assigned throughout lexer.ts but never read, so the dead field is not
carried. Tokens are accumulated most-recent-first (`updateValueContext`
inspects the last few pushed tokens) and reversed at the end. -/

/-- lexer.ts `TokenType`. -/
inductive TokenType where
  | CTIW_START | CTIW_END | DOUBLE_EQUALS | EQUALS | COLON | DOT
  | LPAREN | RPAREN | IDENTIFIER | NUMBER | HEX_COLOR | STRING
  | NEWLINE | EOF
deriving DecidableEq, Repr

/-- lexer.ts `Token`. -/
structure Token where
  type : TokenType
  value : Str
  line : Nat
  column : Nat
deriving DecidableEq, Repr

/-- lexer.ts `LexerError`. -/
structure LexerError where
  message : Str
  line : Nat
  column : Nat
deriving DecidableEq, Repr

/-- The `Lexer` instance fields other than `pos`/`source` (and the dead
`atStatementStart`). `tokens` and `errors` are most-recent-first. -/
structure LexState where
  tokens : List Token
  errors : List LexerError
  line : Nat
  column : Nat
  inValueContext : Bool
deriving Repr

/-- The document marker literal `==CTIW==` of lexer.ts. -/
def ctiwMarker : Str := toL "==CTIW=="

/-- lexer.ts `skipWhitespace`: consume spaces and tabs, and a `\r` that is
directly followed by `\n` (the following `\n` is left to the newline
branch). Returns the remaining input and updated column. -/
def skipWS : Str → Nat → Str × Nat
  | [], col => ([], col)
  | c :: rest, col =>
    if c = ' ' || c = '\t' then skipWS rest (col + 1)
    else if c = '\r' && rest.head? = some '\n' then (rest, col + 1)
    else (c :: rest, col)

/-- lexer.ts `looksLikeAttribute`: scan an identifier from the current
position; `identifier:` is always an attribute; `identifier=` is an
attribute exactly when non-whitespace content follows that `=` before the
next `=`, newline or end of input. -/
def looksLikeAttribute (s : Str) : Bool :=
  match s.dropWhile isAlphaNumericOrHyphen with
  | [] => false
  | c :: r2 =>
    if c = ':' then true
    else if c = '=' then
      match r2.dropWhile isSpaceTab with
      | [] => false
      | d :: _ => !(d = '=' || d = '\n')
    else false

/-- The attribute lookahead `scanString` performs after a space: skip
further spaces/tabs, and when an identifier starts there run exactly the
`looksLikeAttribute` test (lexer.ts inlines the identical character
scan inside `scanString`). -/
def attrBreak (s : Str) : Bool :=
  match s with
  | [] => false
  | c :: _ => isAlpha c && looksLikeAttribute s

/-- lexer.ts `shouldScanString`: only in value context, never at `=` or a
newline; at a letter defer to `looksLikeAttribute`; otherwise scan the rest
of the line for a closing `=`. -/
def shouldScanString (ctx : Bool) (input : Str) : Bool :=
  if !ctx then false
  else
    match input with
    | [] => false
    | '=' :: _ => false
    | '\n' :: _ => false
    | c :: _ =>
      if isAlpha c then !looksLikeAttribute input
      else (input.takeWhile (fun x => !(x = '\n'))).any (fun x => x = '=')

/-- The character-consuming loop of lexer.ts `scanString`: accumulate value
characters until the closing `=`, a newline, end of input, or a space whose
lookahead (`attrBreak` after skipping spaces/tabs) sees a real attribute.
Returns the raw accumulated value and the remaining input. -/
def scanStringGo (acc : Str) : Str → Str × Str
  | [] => (acc, [])
  | c :: rest =>
    if c = '\n' then (acc, c :: rest)
    else if c = '=' then (acc, c :: rest)
    else if isSpaceTab c then
      if attrBreak (rest.dropWhile isSpaceTab) then (acc, c :: rest)
      else scanStringGo (acc ++ [c]) rest
    else scanStringGo (acc ++ [c]) rest

/-- lexer.ts `updateValueContext`, evaluated on the most-recent-first token
list just after an `EQUALS` was pushed: value context is entered only after
the primary pattern `EQUALS, IDENTIFIER, EQUALS` whose opening `EQUALS`
stood at a statement start (beginning of input, or after a newline, an
indentation dot, or the document-start marker). -/
def updateValueContext (tokens : List Token) : Bool :=
  match tokens with
  | t1 :: t2 :: t3 :: rest =>
    if t1.type = .EQUALS && t2.type = .IDENTIFIER && t3.type = .EQUALS then
      match rest with
      | [] => true
      | t4 :: _ =>
        t4.type = .NEWLINE || t4.type = .DOT || t4.type = .CTIW_START
    else false
  | _ => false

/-- The kid-friendly unknown-character message of lexer.ts `scanToken`. -/
def unknownCharMsg (c : Char) : Str :=
  toL "Oops! I found a character I don't understand: '" ++ [c] ++
    toL "'. Try using letters, numbers, dots, or equals signs!"

/-- lexer.ts `scanToken` driven by the `tokenize` loop. Each iteration
consumes at least one character, so `source.length + 1` fuel suffices. -/
def lexGo : Nat → Str → LexState → LexState
  | 0, _, st => st
  | fuel + 1, input, st₀ =>
    let p := skipWS input st₀.column
    let st := { st₀ with column := p.2 }
    match p.1 with
    | [] => st
    | c :: rest =>
      let inp : Str := c :: rest
      let col := st.column
      if inp.take 8 = ctiwMarker then
        let hasStart := st.tokens.any (fun t => t.type = .CTIW_START)
        lexGo fuel (inp.drop 8)
          { st with
            tokens := ⟨if hasStart then .CTIW_END else .CTIW_START,
                       ctiwMarker, st.line, col⟩ :: st.tokens,
            column := col + 8, inValueContext := false }
      else if inp.take 2 = toL "==" then
        lexGo fuel (inp.drop 2)
          { st with
            tokens := ⟨.DOUBLE_EQUALS, toL "==", st.line, col⟩ :: st.tokens,
            column := col + 2, inValueContext := false }
      else if c = '=' then
        let toks := (⟨.EQUALS, toL "=", st.line, col⟩ : Token) :: st.tokens
        lexGo fuel rest
          { st with tokens := toks, column := col + 1,
                    inValueContext := updateValueContext toks }
      else if c = ':' then
        lexGo fuel rest
          { st with tokens := ⟨.COLON, toL ":", st.line, col⟩ :: st.tokens,
                    column := col + 1, inValueContext := false }
      else if c = '.' then
        lexGo fuel rest
          { st with tokens := ⟨.DOT, toL ".", st.line, col⟩ :: st.tokens,
                    column := col + 1, inValueContext := false }
      else if c = '(' then
        lexGo fuel rest
          { st with tokens := ⟨.LPAREN, toL "(", st.line, col⟩ :: st.tokens,
                    column := col + 1, inValueContext := false }
      else if c = ')' then
        lexGo fuel rest
          { st with tokens := ⟨.RPAREN, toL ")", st.line, col⟩ :: st.tokens,
                    column := col + 1, inValueContext := false }
      else if c = '\n' then
        lexGo fuel rest
          { st with tokens := ⟨.NEWLINE, toL "\n", st.line, col⟩ :: st.tokens,
                    line := st.line + 1, column := 1, inValueContext := false }
      else if shouldScanString st.inValueContext inp then
        let r := scanStringGo [] inp
        let value := trimStr r.1
        let toks :=
          if value = [] then st.tokens
          else (⟨.STRING, value, st.line, col⟩ : Token) :: st.tokens
        lexGo fuel r.2
          { st with tokens := toks, column := col + r.1.length,
                    inValueContext := false }
      else if isAlpha c then
        let v := inp.takeWhile isAlphaNumericOrHyphen
        let ty : TokenType :=
          if v.length = 6 && v.all isHexDigit then .HEX_COLOR else .IDENTIFIER
        lexGo fuel (inp.dropWhile isAlphaNumericOrHyphen)
          { st with tokens := ⟨ty, v, st.line, col⟩ :: st.tokens,
                    column := col + v.length, inValueContext := false }
      else if isDigit c then
        let v := inp.takeWhile isHexDigit
        let ty : TokenType := if v.length = 6 then .HEX_COLOR else .NUMBER
        lexGo fuel (inp.dropWhile isHexDigit)
          { st with tokens := ⟨ty, v, st.line, col⟩ :: st.tokens,
                    column := col + v.length, inValueContext := false }
      else
        lexGo fuel rest
          { st with errors := ⟨unknownCharMsg c, st.line, col⟩ :: st.errors,
                    column := col + 1 }

/-- The fresh lexer state `tokenize` resets to. -/
def initLexState : LexState := ⟨[], [], 1, 1, false⟩

/-- lexer.ts `tokenize` (the `tokenize` helper function returning tokens
and errors): run the scanner over the whole source and append the `EOF`
token. -/
def tokenize (source : Str) : List Token × List LexerError :=
  let st := lexGo (source.length + 1) source initLexState
  (st.tokens.reverse ++ [⟨.EOF, [], st.line, st.column⟩], st.errors.reverse)

/-! ## AST (ast.ts)

ast.ts itself is not among the repository files; its node shapes,
constructors and constants are modelled from the spec (§3 data model), the
parser/codegen call sites and the test expectations. Node source locations
are carried in the TypeScript AST but never read by the parser, the code
generator or any property below, so they are not modelled. -/

/-- A parsed property value: parser.ts `parseDocProperty` stores either the
raw string or, when `Number(value)` is not `NaN` and the string is
non-empty, the number. Only integral numerals are modelled by the numeric
conversion below; the conversion feeds only the document metadata fields
`language`/`fontSize`, which no property below inspects numerically. -/
inductive PropValue where
  | str (s : Str)
  | num (n : Int)
deriving DecidableEq, Repr

/-- Modelled from the spec: the AST node union of ast.ts (`ElementNode`,
`SpecialNode`, `PropertyNode`, `ErrorNode`). `createElement` constructs an
element with an empty `children` array (the parser tests expect
`div.children` to equal `[]` for a fresh element); `createSpecial` stores
the special kind. -/
inductive CTIWNode where
  | element (elementType : Str) (properties : List (Str × Str))
      (content : Option Str) (children : List CTIWNode)
  | special (specialType : Str)
  | property (name : Str) (value : PropValue)
  | errorNode (message : Str) (raw : Str)

/-- ast.ts `isElementNode` type guard. -/
def isElementNode : CTIWNode → Bool
  | .element _ _ _ _ => true
  | _ => false

/-- ast.ts `isSpecialNode` type guard. -/
def isSpecialNode : CTIWNode → Bool
  | .special _ => true
  | _ => false

/-- Modelled from the spec: ast.ts `ELEMENT_TYPES`, the fixed element
vocabulary (spec §3/§4 element tables and the editor completion list). -/
def ELEMENT_TYPES : List Str :=
  [toL "title", toL "text", toL "line", toL "button", toL "password",
   toL "input", toL "divide", toL "img", toL "link"]

/-- Modelled from the spec: ast.ts `isValidElementType`. -/
def isValidElementType (name : Str) : Bool :=
  ELEMENT_TYPES.any (fun t => t = name)

/-- ast.ts `DocumentMetadata`. `fontSize` is a JavaScript number once set;
`none` in the inner option stands for `NaN`. -/
structure DocumentMetadata where
  title : Option Str := none
  language : Option Str := none
  fontSize : Option (Option Int) := none
deriving DecidableEq, Repr

/-- ast.ts `DocumentNode` (children plus metadata; the location is never
read). -/
structure DocumentNode where
  children : List CTIWNode
  metadata : DocumentMetadata

/-! ## Parser (parser.ts)

parser.ts is line-based: it never invokes the lexer. The `Parser` class
fields `metadata`, `body`, `errors` and the local `containerStack` become
an explicit `BState`. The TypeScript stack frames hold object references
into the tree being built; references are modelled as positional paths
into the body forest (a path `[i, j]` addresses `body[i].children[j]`),
with `appendAt` playing the role of `parent.children.push(...)`. Since
nodes are only ever appended (never removed or reordered), recorded paths
stay valid. A frame also records the referenced element's `elementType`,
which is immutable in the TypeScript object. -/

/-- parser.ts `ParseError` (the parser never fills the optional column). -/
structure ParseError where
  message : Str
  line : Nat
deriving DecidableEq, Repr

/-- JavaScript truthiness of an optional string (`undefined` and `''` are
falsy). -/
def tsTruthy : Option Str → Bool
  | some s => !s.isEmpty
  | none => false

/-- JavaScript `Number(...)` on a trimmed string, restricted to the
integral numerals the grammar produces: empty gives `0`, an optional sign
followed by digits gives the integer, anything else gives `NaN` (`none`). -/
def jsNumber : Str → Option Int
  | [] => some 0
  | '-' :: ds =>
    if ds ≠ [] && ds.all isDigit then some (-(Int.ofNat (Nat.ofDigits 10 (ds.map (fun c => c.toNat - 48)).reverse))) else none
  | '+' :: ds =>
    if ds ≠ [] && ds.all isDigit then some (Int.ofNat (Nat.ofDigits 10 (ds.map (fun c => c.toNat - 48)).reverse)) else none
  | s =>
    if s.all isDigit then some (Int.ofNat (Nat.ofDigits 10 (s.map (fun c => c.toNat - 48)).reverse)) else none

/-- JavaScript `String(...)` of a `PropValue`. -/
def propValueToStr : PropValue → Str
  | .str s => s
  | .num n => toL (toString n)

/-- `Number(...)` applied to a `PropValue` (parser.ts line
`this.metadata.fontSize = Number(prop.value)`). -/
def jsNumberOfValue : PropValue → Option Int
  | .num n => some n
  | .str s => jsNumber s

/-- parser.ts `parseIndentation`: trim leading whitespace, count leading
dots, two dots per level (floored), and trim the rest to the statement
content. -/
def parseIndentation (line : Str) : Nat × Str :=
  let spaceTrimmed := trimStartStr line
  let dots := (spaceTrimmed.takeWhile (fun c => c = '.')).length
  (dots / 2, trimStr (spaceTrimmed.dropWhile (fun c => c = '.')))

/-- The regular expression `/^=\((\w+)\)=$/` of parser.ts
`parseSpecialElement`: the whole line must be `=(`, a non-empty run of word
characters, `)=`. Returns the captured word. -/
def matchSpecial : Str → Option Str
  | '=' :: '(' :: rest =>
    let w := rest.takeWhile (fun c => isAlpha c || isDigit c || c = '_')
    let r := rest.dropWhile (fun c => isAlpha c || isDigit c || c = '_')
    if w ≠ [] && r = [')', '='] then some w else none
  | _ => none

/-- parser.ts `parseSpecialElement`: only the special kind `time` is
known. Returns the node (if any) and the errors emitted. -/
def parseSpecialElement (line : Str) (lineNumber : Nat) :
    Option CTIWNode × List ParseError :=
  match matchSpecial line with
  | some w =>
    if toLowerStr w = toL "time" then (some (.special (toL "time")), [])
    else (none, [⟨toL "I don't know this special element", lineNumber⟩])
  | none => (none, [⟨toL "I don't know this special element", lineNumber⟩])

/-- parser.ts `tokenizeElementLine`: split the attribute region on spaces,
trimming each part and dropping empties. -/
def tokenizeElementLine (line : Str) : List Str :=
  ((splitOnChar ' ' line).map trimStr).filter (fun p => p ≠ [])

/-- parser.ts `parseAttribute`: strip one trailing `=`, then split on `:`
(first) or `=`, keeping the first two segments as name and value. -/
def parseAttribute (part : Str) : Option (Str × Str) :=
  let part := if part.getLast? = some '=' then part.dropLast else part
  if part.any (fun c => c = ':') then
    let name := part.takeWhile (fun c => !(c = ':'))
    let after := (part.dropWhile (fun c => !(c = ':'))).drop 1
    some (trimStr name, trimStr (after.takeWhile (fun c => !(c = ':'))))
  else if part.any (fun c => c = '=') then
    let name := part.takeWhile (fun c => !(c = '='))
    let after := (part.dropWhile (fun c => !(c = '='))).drop 1
    some (trimStr name, trimStr (after.takeWhile (fun c => !(c = '='))))
  else none

/-- TypeScript `properties[propName] = propValue` on a plain object:
overwrite in place if the key exists, else append. -/
def setProp : List (Str × Str) → Str → Str → List (Str × Str)
  | [], k, v => [(k, v)]
  | (k', v') :: rest, k, v =>
    if k' = k then (k, v) :: rest else (k', v') :: setProp rest k v

/-- Fold `parseAttribute` over the split attribute parts (the loop bodies
of parser.ts `parseElement`). -/
def collectProps (parts : List Str) : List (Str × Str) :=
  parts.foldl
    (fun props part =>
      match parseAttribute part with
      | some (k, v) => setProp props k v
      | none => props)
    []

/-- The content/properties split of parser.ts `parseElement`: find the
first `=` that is at the end of the line or followed by a space; return
the text before it and the text after it. -/
def findContentEnd : Str → Option (Str × Str)
  | [] => none
  | c :: rest =>
    if c = '=' && (rest.isEmpty || rest.head? = some ' ') then some ([], rest)
    else (findContentEnd rest).map (fun p => (c :: p.1, p.2))

/-- parser.ts `parseElement`: empty rest gives a bare element; a leading
space means attributes only; otherwise the part before the content-ending
`=` is the content and the remainder holds attributes (no such `=` makes
the whole rest the content). -/
def parseElement (elementType : Str) (remaining : Str) : CTIWNode :=
  if remaining = [] then
    .element elementType [] none []
  else if remaining.head? = some ' ' then
    .element elementType (collectProps (tokenizeElementLine (trimStr remaining))) none []
  else
    match findContentEnd remaining with
    | some (before, after) =>
      .element elementType (collectProps (tokenizeElementLine (trimStr after)))
        (some (trimStr before)) []
    | none => .element elementType [] (some (trimStr remaining)) []

/-- parser.ts `parseDocProperty`: the value runs to the first `=` (or the
end), trimmed; numeric-looking values are coerced. -/
def parseDocProperty (name remaining : Str) : CTIWNode :=
  let value := trimStr (remaining.takeWhile (fun c => !(c = '=')))
  match jsNumber value with
  | some n => if value ≠ [] then .property name (.num n) else .property name (.str value)
  | none => .property name (.str value)

/-- The value also extracted for title metadata inside parser.ts
`parsePropertyOrElement` (`remaining` up to the first `=`, trimmed). -/
def titleValue (remaining : Str) : Str :=
  trimStr (remaining.takeWhile (fun c => !(c = '=')))

/-- parser.ts `parsePropertyOrElement`: split off the name before the
second `=`; dispatch to document properties, the dual-purpose `title`
(which also sets the document title when it is still unset or empty —
a JavaScript falsy check), known element kinds, or an unknown-name error.
Returns the node (if any), the updated metadata and the errors emitted. -/
def parsePropertyOrElement (line : Str) (lineNumber : Nat)
    (metadata : DocumentMetadata) :
    Option CTIWNode × DocumentMetadata × List ParseError :=
  let rest := line.drop 1
  let nameSeg := rest.takeWhile (fun c => !(c = '='))
  if nameSeg.length = rest.length then
    (none, metadata, [⟨toL "Expected = after the name", lineNumber⟩])
  else
    let name := toLowerStr (trimStr nameSeg)
    let remaining := rest.drop (nameSeg.length + 1)
    if name = toL "language" || name = toL "font-size" then
      (some (parseDocProperty name remaining), metadata, [])
    else if name = toL "title" then
      let metadata' :=
        if !tsTruthy metadata.title then
          { metadata with title := some (titleValue remaining) }
        else metadata
      (some (parseElement (toL "title") remaining), metadata', [])
    else if isValidElementType name then
      (some (parseElement name remaining), metadata, [])
    else
      (none, metadata,
        [⟨toL "Hmm, I don't know what '" ++ name ++
            toL "' is. Try: " ++ strJoin (toL ", ") ELEMENT_TYPES, lineNumber⟩])

/-- parser.ts `parseStatement`: lines must start with `=`; `=(...)=` lines
go to the special parser; everything else to `parsePropertyOrElement`. -/
def parseStatement (line : Str) (lineNumber : Nat)
    (metadata : DocumentMetadata) :
    Option CTIWNode × DocumentMetadata × List ParseError :=
  if line.head? ≠ some '=' then
    (none, metadata,
      [⟨toL "Hmm, I don't understand this line. Lines should start with =",
        lineNumber⟩])
  else if startsWithStr (toL "=(") line && containsStr (toL ")=") line then
    let r := parseSpecialElement line lineNumber
    (r.1, metadata, r.2)
  else
    parsePropertyOrElement line lineNumber metadata

/-! ### The body loop (parser.ts `parseBody`) -/

/-- An open-container frame of parser.ts `parseBody` (`{element, indent}`).
The object reference becomes a positional path into the body forest; the
referenced element's immutable `elementType` is recorded alongside. -/
structure Frame where
  path : List Nat
  indent : Nat
  etype : Str
deriving DecidableEq, Repr

/-- The parser state threaded through the body loop: the body forest, the
container stack (innermost frame first), the document metadata and the
errors recorded so far (in order). -/
structure BState where
  body : List CTIWNode
  stack : List Frame
  metadata : DocumentMetadata
  errors : List ParseError

/-- Replace the element at one index of a list by applying `f`. -/
def modifyIdx (f : CTIWNode → CTIWNode) : Nat → List CTIWNode → List CTIWNode
  | _, [] => []
  | 0, x :: xs => f x :: xs
  | n + 1, x :: xs => x :: modifyIdx f n xs

/-- Read the node addressed by a (non-empty) path in the body forest. -/
def getAt : List Nat → List CTIWNode → Option CTIWNode
  | [], _ => none
  | i :: rest, forest =>
    match forest.get? i, rest with
    | some nd, [] => some nd
    | some (.element _ _ _ ch), _ :: _ => getAt rest ch
    | _, _ => none

/-- The number of children at a path (`[]` addresses the forest root). -/
def countAt : List Nat → List CTIWNode → Nat
  | [], forest => forest.length
  | i :: rest, forest =>
    match forest.get? i with
    | some (.element _ _ _ ch) => countAt rest ch
    | _ => 0

/-- `parent.children.push(child)` through a path: append `child` to the
children of the element addressed by the path (`[]` appends at the root). -/
def appendAt : List Nat → CTIWNode → List CTIWNode → List CTIWNode
  | [], child, forest => forest ++ [child]
  | i :: rest, child, forest =>
    modifyIdx
      (fun nd =>
        match nd with
        | .element t p c ch => .element t p c (appendAt rest child ch)
        | nd => nd)
      i forest

/-- The pop loop at the head of parser.ts `parseBody`'s statement branch:
pop frames at the same or lower indent, but stop at the first `divide`
frame (divides only close by keyword). -/
def popNonDivides (indent : Nat) : List Frame → List Frame
  | [] => []
  | f :: rest =>
    if f.indent ≥ indent then
      if f.etype ≠ toL "divide" then popNonDivides indent rest else f :: rest
    else f :: rest

/-- The `parseBody` branch folding a `Property` node into the document
metadata (`language`, `font-size`, `title`). -/
def applyProp (m : DocumentMetadata) (name : Str) (v : PropValue) :
    DocumentMetadata :=
  if name = toL "language" then { m with language := some (propValueToStr v) }
  else if name = toL "font-size" then { m with fontSize := some (jsNumberOfValue v) }
  else if name = toL "title" then { m with title := some (propValueToStr v) }
  else m

/-- Whether a parsed node is an element of kind `divide` (the only kind
pushed as a container frame). -/
def isDivideElement : CTIWNode → Bool
  | .element t _ _ _ => t = toL "divide"
  | _ => false

/-- One iteration of parser.ts `parseBody` over a single body line (the
caller has already ruled out the footer): skip blank lines; a bare
`=divide=` with an open container pops the innermost frame regardless of
indentation; otherwise classify the statement, record its errors, fold
properties into metadata, attach elements and specials to the innermost
open container (when one is open and the indent is positive) or to the
top level, and push a new frame for `divide` elements. -/
def bodyStep (line : Str) (lineNumber : Nat) (st : BState) : BState :=
  if trimStr line = [] then st
  else
    let p := parseIndentation line
    let indent := p.1
    let content := p.2
    if content = toL "=divide=" && !st.stack.isEmpty then
      { st with stack := st.stack.tail }
    else
      let r := parseStatement content lineNumber st.metadata
      let st := { st with metadata := r.2.1, errors := st.errors ++ r.2.2 }
      match r.1 with
      | none => st
      | some node =>
        let stack1 := popNonDivides indent st.stack
        match node with
        | .property name value =>
          { st with stack := stack1, metadata := applyProp st.metadata name value }
        | node =>
          let att :
              List CTIWNode × List Nat :=
            match stack1, indent with
            | f :: _, _ + 1 =>
              (appendAt f.path node st.body, f.path ++ [countAt f.path st.body])
            | _, _ => (st.body ++ [node], [st.body.length])
          let stack2 :=
            if isDivideElement node then
              (⟨att.2, indent, toL "divide"⟩ : Frame) :: stack1
            else stack1
          { st with body := att.1, stack := stack2 }

/-- The loop of parser.ts `parseBody`: process lines until the footer line
or the end of input; return the state, the unconsumed lines (the footer
first, when present) and the next line number. -/
def parseBodyGo : List Str → Nat → BState → BState × List Str × Nat
  | [], n, st => (st, [], n)
  | line :: rest, n, st =>
    if trimStr line = toL "==CTIW==" then (st, line :: rest, n)
    else parseBodyGo rest (n + 1) (bodyStep line n st)

/-- parser.ts `skipEmptyLines`, counting 1-based line numbers. -/
def skipEmpty : List Str → Nat → List Str × Nat
  | [], n => ([], n)
  | l :: rest, n =>
    if trimStr l = [] then skipEmpty rest (n + 1) else (l :: rest, n)

/-- parser.ts `ParseResult`. -/
structure ParseResult where
  document : DocumentNode
  errors : List ParseError

/-- The missing-header message of parser.ts `parse`. -/
def missingHeaderMsg : Str := toL "Oops! Your CTIW code needs to start with =CTIW="

/-- The missing-footer message of parser.ts `parse`. -/
def missingFooterMsg : Str := toL "Don't forget to end your code with ==CTIW=="

/-- parser.ts `parse` (the exported `parse` helper): split into lines,
require the `=CTIW=` header and `==CTIW==` footer (recording an error and
continuing on either failure), and run the body loop in between. -/
def parseFn (source : Str) : ParseResult :=
  let lines := splitOnChar '\n' source
  let h := skipEmpty lines 1
  let hdr :
      List Str × Nat × List ParseError :=
    match h.1 with
    | l :: rest =>
      if trimStr l = toL "=CTIW=" then (rest, h.2 + 1, [])
      else (l :: rest, h.2, [⟨missingHeaderMsg, h.2⟩])
    | [] => ([], h.2, [⟨missingHeaderMsg, h.2⟩])
  let b := parseBodyGo hdr.1 hdr.2.1 ⟨[], [], {}, hdr.2.2⟩
  let st := b.1
  let f := skipEmpty b.2.1 b.2.2
  let errors :=
    match f.1 with
    | l :: _ =>
      if trimStr l = toL "==CTIW==" then st.errors
      else st.errors ++ [⟨missingFooterMsg, f.2⟩]
    | [] => st.errors ++ [⟨missingFooterMsg, f.2⟩]
  ⟨⟨st.body, st.metadata⟩, errors⟩

/-! ## Code generator (codegen.ts) -/

/-- codegen.ts `CSS_PROPERTY_MAP`. -/
def CSS_PROPERTY_MAP : List (Str × Str) :=
  [(toL "color", toL "background-color"),
   (toL "in", toL "text-align"),
   (toL "size", toL "width"),
   (toL "background", toL "background"),
   (toL "background-color", toL "background-color"),
   (toL "border", toL "border"),
   (toL "border-radius", toL "border-radius"),
   (toL "font-size", toL "font-size"),
   (toL "font-family", toL "font-family"),
   (toL "font-weight", toL "font-weight"),
   (toL "text-align", toL "text-align"),
   (toL "width", toL "width"),
   (toL "height", toL "height"),
   (toL "margin", toL "margin"),
   (toL "margin-top", toL "margin-top"),
   (toL "margin-bottom", toL "margin-bottom"),
   (toL "margin-left", toL "margin-left"),
   (toL "margin-right", toL "margin-right"),
   (toL "padding", toL "padding"),
   (toL "padding-top", toL "padding-top"),
   (toL "padding-bottom", toL "padding-bottom"),
   (toL "padding-left", toL "padding-left"),
   (toL "padding-right", toL "padding-right"),
   (toL "display", toL "display"),
   (toL "flex", toL "flex"),
   (toL "flex-direction", toL "flex-direction"),
   (toL "justify-content", toL "justify-content"),
   (toL "align-items", toL "align-items"),
   (toL "gap", toL "gap"),
   (toL "grid", toL "grid"),
   (toL "position", toL "position"),
   (toL "top", toL "top"),
   (toL "left", toL "left"),
   (toL "right", toL "right"),
   (toL "bottom", toL "bottom"),
   (toL "z-index", toL "z-index"),
   (toL "opacity", toL "opacity"),
   (toL "transform", toL "transform"),
   (toL "transition", toL "transition"),
   (toL "cursor", toL "cursor"),
   (toL "overflow", toL "overflow"),
   (toL "box-shadow", toL "box-shadow"),
   (toL "text-decoration", toL "text-decoration"),
   (toL "line-height", toL "line-height"),
   (toL "letter-spacing", toL "letter-spacing"),
   (toL "max-width", toL "max-width"),
   (toL "min-width", toL "min-width"),
   (toL "max-height", toL "max-height"),
   (toL "min-height", toL "min-height")]

/-- codegen.ts `HTML_ATTRIBUTES`. -/
def HTML_ATTRIBUTES : List Str :=
  [toL "id", toL "class", toL "href", toL "src", toL "alt", toL "title",
   toL "type", toL "name", toL "value", toL "placeholder", toL "disabled",
   toL "readonly", toL "checked", toL "selected", toL "target", toL "rel",
   toL "download", toL "data", toL "role", toL "aria-label", toL "width",
   toL "height", toL "autoplay", toL "controls", toL "loop", toL "muted",
   toL "poster", toL "action", toL "method", toL "enctype", toL "colspan",
   toL "rowspan", toL "scope", toL "min", toL "max", toL "step",
   toL "pattern", toL "required", toL "maxlength", toL "minlength",
   toL "for", toL "tabindex", toL "autofocus", toL "autocomplete"]

/-- codegen.ts `SELF_CLOSING_ELEMENTS`. -/
def SELF_CLOSING_ELEMENTS : List Str :=
  [toL "area", toL "base", toL "br", toL "col", toL "embed", toL "hr",
   toL "img", toL "input", toL "link", toL "meta", toL "param",
   toL "source", toL "track", toL "wbr"]

/-- codegen.ts `ELEMENT_TAG_MAP`. -/
def ELEMENT_TAG_MAP : List (Str × Str) :=
  [(toL "title", toL "h1"), (toL "text", toL "p"), (toL "divide", toL "div"),
   (toL "line", toL "br"), (toL "heading", toL "h2"),
   (toL "subheading", toL "h3")]

/-- codegen.ts `LANGUAGE_MAP`. -/
def LANGUAGE_MAP : List (Str × Str) :=
  [(toL "english", toL "en"), (toL "spanish", toL "es"),
   (toL "french", toL "fr"), (toL "german", toL "de"),
   (toL "chinese", toL "zh"), (toL "japanese", toL "ja"),
   (toL "korean", toL "ko"), (toL "portuguese", toL "pt"),
   (toL "italian", toL "it"), (toL "russian", toL "ru")]

/-- Association-list lookup standing in for a `Record` access. -/
def tableLookup (table : List (Str × Str)) (k : Str) : Option Str :=
  (table.find? (fun p => p.1 = k)).map (fun p => p.2)

/-- Membership in one of the fixed `Set`s. -/
def inTable (table : List Str) (k : Str) : Bool :=
  table.any (fun a => a = k)

/-- One global single-character replacement, as in
`text.replace(/&/g, '&amp;')`. -/
def charExpand (c : Char) (r : Str) (s : Str) : Str :=
  s.flatMap (fun x => if x = c then r else [x])

/-- codegen.ts `escapeHTML`: replace `&`, `<`, `>`, `"`, `'` in that
order. -/
def escapeHTML (text : Str) : Str :=
  charExpand '\'' (toL "&#39;")
    (charExpand '"' (toL "&quot;")
      (charExpand '>' (toL "&gt;")
        (charExpand '<' (toL "&lt;")
          (charExpand '&' (toL "&amp;") text))))

/-- codegen.ts `isHexColor`: exactly six hex digits. -/
def isHexColor (value : Str) : Bool :=
  value.length = 6 && value.all isHexDigit

/-- codegen.ts: the pixel-valued property allow-list of `formatCSSValue`. -/
def pixelProps : List Str :=
  [toL "font-size", toL "width", toL "height", toL "margin", toL "padding",
   toL "gap", toL "top", toL "left", toL "right", toL "bottom",
   toL "border-radius", toL "size", toL "margin-top", toL "margin-bottom",
   toL "margin-left", toL "margin-right", toL "padding-top",
   toL "padding-bottom", toL "padding-left", toL "padding-right",
   toL "max-width", toL "min-width", toL "max-height", toL "min-height"]

/-- codegen.ts `formatCSSValue`: hex colors get a `#` for color-like
property names, digit-only values of pixel properties get a `px` unit. -/
def formatCSSValue (propName value : Str) : Str :=
  if (containsStr (toL "color") propName || propName = toL "background") &&
      isHexColor value then
    toL "#" ++ value
  else if inTable pixelProps propName && value ≠ [] && value.all isDigit then
    value ++ toL "px"
  else value

/-- The regular expression `/^[a-z][a-z0-9-]*$/i` guarding CSS property
emission. -/
def validCssIdent (s : Str) : Bool :=
  match s with
  | [] => false
  | c :: rest => isAlpha c && rest.all (fun x => isAlpha x || isDigit x || x = '-')

/-- The property-to-style loop shared verbatim by codegen.ts
`generateElementCSS` and `generateInlineStyles` (the two functions repeat
the identical loop body): HTML attributes are skipped, `color`/`outline`/
`in` get their bespoke translations, everything else goes through
`CSS_PROPERTY_MAP` and `formatCSSValue`. -/
def stylesOf : List (Str × Str) → List Str
  | [] => []
  | (k, v) :: rest =>
    (if inTable HTML_ATTRIBUTES k then []
     else if k = toL "color" && isHexColor v then
       [toL "background-color: #" ++ v]
     else if k = toL "outline" then
       if v = toL "visible" then [toL "border: 1px solid black"]
       else if v = toL "invisible" then [toL "border: none"]
       else []
     else if k = toL "in" then
       if v = toL "middle" || v = toL "center" then [toL "text-align: center"]
       else if v = toL "left" then [toL "text-align: left"]
       else if v = toL "right" then [toL "text-align: right"]
       else []
     else
       let cssProperty := (tableLookup CSS_PROPERTY_MAP k).getD k
       if validCssIdent cssProperty then
         [cssProperty ++ toL ": " ++ formatCSSValue k v]
       else []) ++ stylesOf rest

/-- codegen.ts `generateElementCSS`: elements with a (truthy) id and at
least one style become one id-selector rule. -/
def generateElementCSS (properties : List (Str × Str)) : Str :=
  let id := tableLookup properties (toL "id")
  if !tsTruthy id then []
  else
    let styles := stylesOf properties
    if styles = [] then []
    else toL "#" ++ id.getD [] ++ toL " \x7b " ++ strJoin (toL "; ") styles ++ toL "; \x7d"

mutual

/-- The `processNode` inner function of codegen.ts `generateCSS`: an
element contributes its own rule (when non-empty) and then its children's,
depth first. -/
def cssNodeRules : CTIWNode → List Str
  | .element _ p _ ch =>
    (let css := generateElementCSS p
     if css = [] then [] else [css]) ++ cssRulesOf ch
  | _ => []
termination_by structural node => node

/-- The depth-first rule collection of codegen.ts `generateCSS`. -/
def cssRulesOf : List CTIWNode → List Str
  | [] => []
  | n :: rest => cssNodeRules n ++ cssRulesOf rest
termination_by structural nodes => nodes

end

/-- codegen.ts `generateCSS`. -/
def generateCSS (nodes : List CTIWNode) : Str :=
  strJoin (toL "\n    ") (cssRulesOf nodes)

/-- codegen.ts `generateAttributes`: emit every property in the fixed
HTML-attribute set, HTML-escaping the value. -/
def generateAttributes (properties : List (Str × Str)) : Str :=
  let attrs := (properties.filter (fun kv => inTable HTML_ATTRIBUTES kv.1)).map
    (fun kv => kv.1 ++ toL "=\"" ++ escapeHTML kv.2 ++ toL "\"")
  if attrs = [] then [] else toL " " ++ strJoin (toL " ") attrs

/-- codegen.ts `generateInlineStyles` (for elements without a truthy id). -/
def generateInlineStyles (properties : List (Str × Str)) : Str :=
  let styles := stylesOf properties
  if styles = [] then []
  else toL " style=\"" ++ strJoin (toL "; ") styles ++ toL "\""

/-- codegen.ts `generateSpecialElement`: `time` renders a clock span,
anything else an HTML comment naming the unknown special. -/
def generateSpecialElement (specialType : Str) : Str :=
  if specialType = toL "time" then toL "<span class=\"ctiw-time\"></span>"
  else toL "<!-- Unknown special: " ++ specialType ++ toL " -->"

/-- The bespoke ` id="..."` attribute of the password/input/img/link
branches of codegen.ts `generateElement`; note the id value is emitted
verbatim, without `escapeHTML`. -/
def bespokeIdAttr (properties : List (Str × Str)) : Str :=
  match tableLookup properties (toL "id") with
  | some idv => if idv = [] then [] else toL " id=\"" ++ idv ++ toL "\""
  | none => []

mutual

/-- codegen.ts `generateElement`: specials render via
`generateSpecialElement`; non-element non-special nodes render as `''`;
`password`/`input`/`img`/`link` have bespoke attribute synthesis; other
kinds map through `ELEMENT_TAG_MAP` (falling back to the kind itself as
the tag), with self-closing tags, children rendering for containers, and
escaped content otherwise. -/
def generateElement (node : CTIWNode) (indent : Str) : Str :=
  match node with
  | .special st => generateSpecialElement st
  | .element etype props content ch =>
    let attrs := generateAttributes props
    let inlineStyles :=
      if !tsTruthy (tableLookup props (toL "id")) then generateInlineStyles props
      else []
    let contentStr :=
      match content with
      | some s => if s = [] then [] else escapeHTML s
      | none => []
    if etype = toL "password" then
      let placeholder :=
        if contentStr = [] then []
        else toL " placeholder=\"" ++ contentStr ++ toL "\""
      toL "<input type=\"password\"" ++ bespokeIdAttr props ++ placeholder ++
        inlineStyles ++ toL ">"
    else if etype = toL "input" then
      let placeholder :=
        if contentStr = [] then []
        else toL " placeholder=\"" ++ contentStr ++ toL "\""
      toL "<input type=\"text\"" ++ bespokeIdAttr props ++ placeholder ++
        inlineStyles ++ toL ">"
    else if etype = toL "img" then
      let src :=
        if contentStr ≠ [] then contentStr
        else match tableLookup props (toL "src") with
          | some s => s
          | none => []
      let alt := (tableLookup props (toL "alt")).getD []
      toL "<img src=\"" ++ escapeHTML src ++ toL "\" alt=\"" ++
        escapeHTML alt ++ toL "\"" ++ bespokeIdAttr props ++ inlineStyles ++
        toL ">"
    else if etype = toL "link" then
      let href :=
        match tableLookup props (toL "href") with
        | some s => if s = [] then toL "#" else s
        | none => toL "#"
      toL "<a href=\"" ++ escapeHTML href ++ toL "\"" ++ bespokeIdAttr props ++
        inlineStyles ++ toL ">" ++ contentStr ++ toL "</a>"
    else
      let tag := (tableLookup ELEMENT_TAG_MAP etype).getD etype
      if inTable SELF_CLOSING_ELEMENTS tag then
        toL "<" ++ tag ++ attrs ++ inlineStyles ++ toL ">"
      else if ch.any (fun c => isElementNode c || isSpecialNode c) then
        let childrenHTML :=
          strJoin (toL "\n" ++ indent ++ toL "  ")
            (generateValidChildren ch (indent ++ toL "  "))
        toL "<" ++ tag ++ attrs ++ inlineStyles ++ toL ">\n" ++ indent ++
          toL "  " ++ childrenHTML ++ toL "\n" ++ indent ++ toL "</" ++ tag ++
          toL ">"
      else
        toL "<" ++ tag ++ attrs ++ inlineStyles ++ toL ">" ++ contentStr ++
          toL "</" ++ tag ++ toL ">"
  | _ => []
termination_by structural node

/-- The `validChildren.map(child => generateElement(child, indent + '  '))`
of codegen.ts `generateElement`, filtering to elements and specials. -/
def generateValidChildren (nodes : List CTIWNode) (indent : Str) : List Str :=
  match nodes with
  | [] => []
  | n :: rest =>
    if isElementNode n || isSpecialNode n then
      generateElement n indent :: generateValidChildren rest indent
    else generateValidChildren rest indent
termination_by structural nodes

end

mutual

/-- The per-node check of codegen.ts `hasTimeElement`: a `time` special,
or an element with a `time` somewhere below. -/
def nodeHasTime : CTIWNode → Bool
  | .special st => st = toL "time"
  | .element _ _ _ ch => hasTimeElement ch
  | _ => false
termination_by structural node => node

/-- codegen.ts `hasTimeElement`. -/
def hasTimeElement : List CTIWNode → Bool
  | [] => false
  | n :: rest => nodeHasTime n || hasTimeElement rest
termination_by structural nodes => nodes

end

/-- codegen.ts `generateTimeScript`. -/
def generateTimeScript : Str :=
  toL "\n  <script>\n    function updateTime() \x7b\n      const timeElements = document.querySelectorAll('.ctiw-time');\n      const now = new Date().toLocaleTimeString();\n      timeElements.forEach(el => el.textContent = now);\n    \x7d\n    updateTime();\n    setInterval(updateTime, 1000);\n  </script>"

/-- codegen.ts `generateHTML`: metadata extraction (with JavaScript
truthiness on title, language and fontSize), body filtering, CSS and body
generation, and the document template. -/
def generateHTML (doc : DocumentNode) : Str :=
  let meta := doc.metadata
  let pageTitle :=
    match meta.title with
    | some t => if t = [] then toL "CTIW Page" else t
    | none => toL "CTIW Page"
  let language :=
    match meta.language with
    | some l =>
      if l = [] then []
      else
        match tableLookup LANGUAGE_MAP (toLowerStr l) with
        | some v => if v = [] then l else v
        | none => l
    | none => []
  let fontSize :=
    match meta.fontSize with
    | some (some n) =>
      if n = 0 then [] else toL "font-size: " ++ toL (toString n) ++ toL "px;"
    | _ => []
  let bodyNodes := doc.children.filter (fun c => isElementNode c || isSpecialNode c)
  let elementCSS := generateCSS bodyNodes
  let bodyContent :=
    strJoin (toL "\n") (bodyNodes.map (fun n => toL "  " ++ generateElement n (toL "  ")))
  let needsTimeScript := hasTimeElement bodyNodes
  let langAttr := if language = [] then [] else toL " lang=\"" ++ language ++ toL "\""
  toL "<!DOCTYPE html>\n<html" ++ langAttr ++
    toL ">\n<head>\n  <meta charset=\"utf-8\">\n  <title>" ++
    escapeHTML pageTitle ++
    toL "</title>\n  <style>\n    body \x7b font-family: sans-serif; padding: 20px;" ++
    (if fontSize = [] then [] else toL " " ++ fontSize) ++
    toL " \x7d\n    " ++ elementCSS ++
    toL "\n  </style>\n</head>\n<body>\n" ++ bodyContent ++
    (if needsTimeScript then generateTimeScript else []) ++
    toL "\n</body>\n</html>"

/-- The full compiler pipeline: parse, then generate HTML from the parsed
document (as the live editor does on every keystroke). -/
def pipeline (source : Str) : Str :=
  generateHTML (parseFn source).document

/-! ## Definitions used to state the verified properties -/

/-- A sequence of independent pipeline invocations, one per source (each
call of parser.ts `parse` constructs a fresh `Parser`, and codegen.ts has
only `const` tables at module scope, so runs share no state). -/
def runSequence (sources : List Str) : List Str := sources.map pipeline

/-- The children array of a node (empty for non-elements). -/
def childrenOf : CTIWNode → List CTIWNode
  | .element _ _ _ ch => ch
  | _ => []

mutual

/-- Only elements of kind `divide` may have a non-empty children list,
recursively. -/
def nodeOKb : CTIWNode → Bool
  | .element t _ _ ch => (decide (t = toL "divide") || ch.isEmpty) && listOKb ch
  | _ => true
termination_by structural node => node

/-- `nodeOKb` over a forest. -/
def listOKb : List CTIWNode → Bool
  | [] => true
  | n :: rest => nodeOKb n && listOKb rest
termination_by structural nodes => nodes

end

/-- The errors one body statement produces; parser.ts emits them from
`parseStatement` alone, which never reads the metadata (shown below), so
the default metadata serves. -/
def stmtErrors (content : Str) (lineNumber : Nat) : List ParseError :=
  (parseStatement content lineNumber {}).2.2

/-- The line-local error stream of the parser body: blank lines and bare
`=divide=` statements yield nothing, every other line yields exactly its
statement-classification errors. The container stack plays no part. -/
def bodyErrorsOf : List Str → Nat → List ParseError
  | [], _ => []
  | line :: rest, n =>
    if trimStr line = toL "==CTIW==" then []
    else if trimStr line = [] then bodyErrorsOf rest (n + 1)
    else
      (if (parseIndentation line).2 = toL "=divide=" then []
       else stmtErrors (parseIndentation line).2 n) ++ bodyErrorsOf rest (n + 1)

/-- A value character that cannot interfere with statement syntax: not a
delimiter `=`, not a newline and not whitespace. -/
def plainChar (c : Char) : Bool :=
  !(c = '=') && !(c = '\n') && !isJsWS c

/-- An identifier as the lexer lookahead scans it: non-empty, starting
with a letter, all characters alphanumeric or hyphen/underscore. -/
def identShaped (s : Str) : Bool :=
  match s with
  | [] => false
  | c :: _ => isAlpha c && s.all isAlphaNumericOrHyphen

/-- A container-stack frame is sound for a body forest: it records kind
`divide` and its path addresses a `divide` element of the forest. -/
def frameOK (body : List CTIWNode) (f : Frame) : Prop :=
  f.etype = toL "divide" ∧
  ∃ props content ch,
    getAt f.path body = some (.element (toL "divide") props content ch)

/-- The parser-state invariant behind the children-only-under-divide
property: the forest satisfies `listOKb` and every open frame is sound. -/
def stateOK (st : BState) : Prop :=
  listOKb st.body = true ∧ ∀ f ∈ st.stack, frameOK st.body f

/-! ## Helper lemmas -/

theorem takeWhile_append_all {p : Char → Bool} {l1 l2 : Str}
    (h : ∀ c ∈ l1, p c = true) :
    (l1 ++ l2).takeWhile p = l1 ++ l2.takeWhile p := by
  induction l1 with
  | nil => simp
  | cons c l ih =>
    simp only [List.cons_append, List.takeWhile_cons,
      h c (List.mem_cons_self c l)]
    simpa using ih (fun x hx => h x (List.mem_cons_of_mem c hx))

theorem dropWhile_append_all {p : Char → Bool} {l1 l2 : Str}
    (h : ∀ c ∈ l1, p c = true) :
    (l1 ++ l2).dropWhile p = l2.dropWhile p := by
  induction l1 with
  | nil => simp
  | cons c l ih =>
    simp only [List.cons_append, List.dropWhile_cons,
      h c (List.mem_cons_self c l)]
    simpa using ih (fun x hx => h x (List.mem_cons_of_mem c hx))

theorem takeWhile_all {p : Char → Bool} {l : Str}
    (h : ∀ c ∈ l, p c = true) : l.takeWhile p = l := by
  simpa using @takeWhile_append_all _ _ [] h

theorem dropWhile_all {p : Char → Bool} {l : Str}
    (h : ∀ c ∈ l, p c = true) : l.dropWhile p = [] := by
  simpa using @dropWhile_append_all _ _ [] h

theorem dropWhile_no {p : Char → Bool} {l : Str}
    (h : ∀ c ∈ l, p c = false) : l.dropWhile p = l := by
  cases l with
  | nil => rfl
  | cons c rest => simp [List.dropWhile_cons, h c (List.mem_cons_self c rest)]

/-- Unpack a `plainChar` hypothesis. -/
theorem plainChar_facts {c : Char} (h : plainChar c = true) :
    c ≠ '=' ∧ c ≠ '\n' ∧ isJsWS c = false := by
  simp only [plainChar, Bool.and_eq_true, Bool.not_eq_true', decide_eq_false_iff_not] at h
  exact ⟨h.1.1, h.1.2, h.2⟩

/-- A plain character is not JavaScript whitespace. -/
theorem plainChar_not_ws {c : Char} (h : plainChar c = true) :
    isJsWS c = false :=
  (plainChar_facts h).2.2

/-- Whitespace-free strings are unchanged by `trimStr`. -/
theorem trimStr_noWS {s : Str} (h : ∀ c ∈ s, isJsWS c = false) :
    trimStr s = s := by
  unfold trimStr
  rw [dropWhile_no h,
      dropWhile_no (fun c hc => h c (List.mem_reverse.mp hc)),
      List.reverse_reverse]

/-- Strings of plain characters are unchanged by `trimStr`. -/
theorem trimStr_plain {s : Str} (h : ∀ c ∈ s, plainChar c = true) :
    trimStr s = s :=
  trimStr_noWS (fun c hc => plainChar_not_ws (h c hc))

/-- `trimStr` of a left-trimmed string only trims on the right. -/
theorem trimStr_eq_trimStart_trimEnd (s : Str) :
    trimStr s = ((trimStartStr s).reverse.dropWhile isJsWS).reverse := rfl

/-- Membership through one `charExpand` stage. -/
theorem mem_charExpand {a c : Char} {r s : Str}
    (h : a ∈ charExpand c r s) : a ∈ r ∨ (a ∈ s ∧ a ≠ c) := by
  induction s with
  | nil => simp [charExpand] at h
  | cons x xs ih =>
    simp only [charExpand, List.flatMap_cons] at h
    rcases List.mem_append.mp h with h1 | h2
    · by_cases hx : x = c
      · rw [if_pos hx] at h1; exact Or.inl h1
      · rw [if_neg hx] at h1
        rcases List.mem_singleton.mp h1 with rfl
        exact Or.inr ⟨List.mem_cons_self a xs, hx⟩
    · rcases ih h2 with h3 | ⟨h4, h5⟩
      · exact Or.inl h3
      · exact Or.inr ⟨List.mem_cons_of_mem x h4, h5⟩

/-- No escaped string contains a raw `<`, `>`, `"` or `'`. -/
theorem escapeHTML_no_raw {a : Char} {s : Str} (h : a ∈ escapeHTML s) :
    ¬(a = '<' ∨ a = '>' ∨ a = '"' ∨ a = '\'') := by
  intro hbad
  unfold escapeHTML at h
  rcases mem_charExpand h with h1 | ⟨h2, hq⟩
  · rcases hbad with rfl | rfl | rfl | rfl <;> simp [toL] at h1
  · rcases mem_charExpand h2 with h1 | ⟨h3, hdq⟩
    · rcases hbad with rfl | rfl | rfl | rfl <;> simp [toL] at h1
    · rcases mem_charExpand h3 with h1 | ⟨h4, hgt⟩
      · rcases hbad with rfl | rfl | rfl | rfl <;> simp [toL] at h1
      · rcases mem_charExpand h4 with h1 | ⟨h5, hlt⟩
        · rcases hbad with rfl | rfl | rfl | rfl <;> simp [toL] at h1
        · rcases hbad with rfl | rfl | rfl | rfl
          · exact hlt rfl
          · exact hgt rfl
          · exact hdq rfl
          · exact hq rfl

/-! ## C1 — HTML escaping of author text -/

/-- C1: the claim that no author text — element content or attribute
values such as id — ever reaches the generated HTML unescaped is false:
for the source `=CTIW=\n=password= id:a"b=\n==CTIW==` the author id
`a"b` appears verbatim (raw quote included) in the generated document,
while its escaped form does not appear. -/
theorem c1_counterexample :
    containsStr (toL " id=\"a\"b\"")
      (pipeline (toL "=CTIW=\n=password= id:a\"b=\n==CTIW==")) = true ∧
    containsStr (toL "a&quot;b")
      (pipeline (toL "=CTIW=\n=password= id:a\"b=\n==CTIW==")) = false ∧
    escapeHTML (toL "a\"b") = toL "a&quot;b" := by
  refine ⟨by decide, by decide, by decide⟩

/-- C1 (amended): element content is emitted through `escapeHTML`, and an
escaped string never contains a raw `<`, `>`, `"` or `'` — so none of
those characters from source text inside element content appear unescaped
in generated text nodes. (The bespoke id attribute of the
password/input/img/link branches is emitted verbatim, per the
counterexample.) -/
theorem c1_theorem :
    (∀ s : Str,
      (escapeHTML s).filter
        (fun c => c = '<' || c = '>' || c = '"' || c = '\'') = []) ∧
    (∀ (props : List (Str × Str)) (content ind : Str),
      generateElement (.element (toL "text") props (some content) []) ind =
        toL "<p" ++ generateAttributes props ++
          (if !tsTruthy (tableLookup props (toL "id")) then
            generateInlineStyles props
          else []) ++
          toL ">" ++ (if content = [] then [] else escapeHTML content) ++
          toL "</p>") := by
  constructor
  · intro s
    rw [List.filter_eq_nil_iff]
    intro a ha
    have := escapeHTML_no_raw ha
    simp only [Bool.or_eq_true, decide_eq_true_eq]
    tauto
  · intro props content ind
    have h : tableLookup ELEMENT_TAG_MAP (['t', 'e', 'x', 't'] : Str) = some ['p'] := rfl
    simp +decide [generateElement, toL, h]

/-! ## C3 — degradation of unknown kinds -/

/-- C3: the claim that an Element with an unrecognized kind renders as an
HTML comment placeholder is false: kind `foo` renders as a verbatim
`<foo>` tag and the output contains no comment. -/
theorem c3_counterexample :
    generateElement (.element (toL "foo") [] (some (toL "x")) []) [] =
      toL "<foo>x</foo>" ∧
    containsStr (toL "<!--")
      (generateElement (.element (toL "foo") [] (some (toL "x")) []) []) =
      false := by
  refine ⟨rfl, by decide⟩

/-- C3 (amended): generation is total (the generator is a total function
over every Document value); an unrecognized Special kind renders as an
HTML comment naming it; but an Element with an unrecognized kind is passed
through verbatim as the HTML tag name rather than becoming a comment. -/
theorem c3_theorem :
    (∀ st : Str, st ≠ toL "time" →
      generateSpecialElement st =
        toL "<!-- Unknown special: " ++ st ++ toL " -->") ∧
    (∀ (etype : Str) (props : List (Str × Str)) (content ind : Str),
      tableLookup ELEMENT_TAG_MAP etype = none →
      inTable SELF_CLOSING_ELEMENTS etype = false →
      etype ≠ toL "password" → etype ≠ toL "input" →
      etype ≠ toL "img" → etype ≠ toL "link" →
      generateElement (.element etype props (some content) []) ind =
        toL "<" ++ etype ++ generateAttributes props ++
          (if !tsTruthy (tableLookup props (toL "id")) then
            generateInlineStyles props
          else []) ++
          toL ">" ++ (if content = [] then [] else escapeHTML content) ++
          toL "</" ++ etype ++ toL ">") := by
  constructor
  · intro st hne
    unfold generateSpecialElement
    rw [if_neg hne]
  · intro etype props content ind hmap hsc hp hi hm hl
    show (if etype = toL "password" then _
      else if etype = toL "input" then _
      else if etype = toL "img" then _
      else if etype = toL "link" then _
      else _) = _
    rw [if_neg hp, if_neg hi, if_neg hm, if_neg hl, hmap]
    show (if inTable SELF_CLOSING_ELEMENTS ((none : Option Str).getD etype) = true
      then _ else _) = _
    rw [show ((none : Option Str).getD etype) = etype from rfl, hsc]
    rfl

/-- C3 witness: the amended behaviour at concrete inputs — unknown special
`date` renders a comment and unknown element `wow` a verbatim tag. -/
theorem c3_witness :
    generateSpecialElement (toL "date") = toL "<!-- Unknown special: date -->" ∧
    generateElement (.element (toL "wow") [] (some (toL "x")) []) [] =
      toL "<wow>x</wow>" := by
  constructor
  · rw [c3_theorem.1 (toL "date") (by decide)]
    decide
  · rw [c3_theorem.2 (toL "wow") [] (toL "x") [] rfl (by decide) (by decide)
      (by decide) (by decide) (by decide)]
    decide

/-! ## C9 — determinism and run independence -/

/-- C9: the pipeline is deterministic and independent of previous runs:
appending two invocations on the same source to any run sequence appends
two byte-identical outputs, each the pure function of that source alone.
The embedding is faithfully stateless: parser.ts `parse` constructs a
fresh `Parser` per call, `Lexer.tokenize` re-initializes every instance
field, and codegen.ts holds only `const` tables at module scope. -/
theorem c9_theorem : ∀ (prevs : List Str) (s : Str),
    runSequence (prevs ++ [s, s]) = runSequence prevs ++ [pipeline s, pipeline s] := by
  intro prevs s
  simp [runSequence]

/-! ## C2 — unmatched containers report no error -/

/-- C2: the claim that each container left open at end of input yields one
UnmatchedContainer error is false: a source with a single (odd) bare
`=divide=` that is never closed parses with an empty error list, the
divide staying in the tree with its attached child. -/
theorem c2_counterexample :
    (parseFn (toL "=CTIW=\n=divide=\n..=text=Kept=\n==CTIW==")).errors = [] ∧
    (parseFn (toL "=CTIW=\n=divide=\n..=text=Kept=\n==CTIW==")).document.children =
      [.element (toL "divide") [] none
        [.element (toL "text") [] (some (toL "Kept")) []]] :=
  ⟨rfl, rfl⟩

/-- The errors `parsePropertyOrElement` emits do not depend on the
metadata passed in. -/
theorem parsePropertyOrElement_errors (line : Str) (n : Nat)
    (m : DocumentMetadata) :
    (parsePropertyOrElement line n m).2.2 =
      (parsePropertyOrElement line n {}).2.2 := by
  unfold parsePropertyOrElement
  dsimp only
  repeat' split
  all_goals rfl

/-- The errors `parseStatement` emits do not depend on the metadata. -/
theorem parseStatement_errors (line : Str) (n : Nat) (m : DocumentMetadata) :
    (parseStatement line n m).2.2 = stmtErrors line n := by
  unfold stmtErrors parseStatement
  by_cases h1 : line.head? ≠ some '='
  · simp [h1]
  · simp only [h1, if_false]
    by_cases h2 : (startsWithStr (toL "=(") line && containsStr (toL ")=") line) = true
    · simp [h2]
    · simp only [h2, if_false]
      exact parsePropertyOrElement_errors line n m

/-- A bare `=divide=` statement classifies without error. -/
theorem stmtErrors_divide (n : Nat) : stmtErrors (toL "=divide=") n = [] := rfl

/-- The errors one `bodyStep` adds are determined by the line alone:
nothing for blank lines and bare `=divide=` statements, the statement
classifier's errors otherwise — never anything from the container stack. -/
theorem bodyStep_errors (line : Str) (n : Nat) (st : BState) :
    (bodyStep line n st).errors =
      st.errors ++
        (if trimStr line = [] then []
         else if (parseIndentation line).2 = toL "=divide=" then []
         else stmtErrors (parseIndentation line).2 n) := by
  unfold bodyStep
  by_cases h0 : trimStr line = []
  · simp [h0]
  · simp only [h0, if_false]
    cases hs : st.stack with
    | nil =>
      simp only [List.isEmpty_nil, Bool.not_true, Bool.and_false,
        Bool.false_eq_true, if_false]
      by_cases h1 : (parseIndentation line).2 = toL "=divide="
      · rw [if_pos h1, h1]
        rcases hr : parseStatement (toL "=divide=") n st.metadata with ⟨res, m2, errs⟩
        have herr : errs = [] := by
          have h := parseStatement_errors (toL "=divide=") n st.metadata
          rw [hr, stmtErrors_divide] at h
          exact h
        subst herr
        cases res with
        | none => simp
        | some node => cases node <;> dsimp only
      · rw [if_neg h1]
        rcases hr : parseStatement (parseIndentation line).2 n st.metadata with ⟨res, m2, errs⟩
        have herr : errs = stmtErrors (parseIndentation line).2 n := by
          have h := parseStatement_errors (parseIndentation line).2 n st.metadata
          rw [hr] at h
          exact h
        subst herr
        cases res with
        | none => rfl
        | some node => cases node <;> dsimp only
    | cons f fs =>
      simp only [List.isEmpty_cons, Bool.not_false, Bool.and_true]
      by_cases h1 : (parseIndentation line).2 = toL "=divide="
      · rw [if_pos (show (decide ((parseIndentation line).2 = toL "=divide=") = true) from by
          simp [h1])]
        rw [if_pos h1]
        simp
      · rw [if_neg (show ¬(decide ((parseIndentation line).2 = toL "=divide=") = true) from by
          simp [h1])]
        rw [if_neg h1]
        rcases hr : parseStatement (parseIndentation line).2 n st.metadata with ⟨res, m2, errs⟩
        have herr : errs = stmtErrors (parseIndentation line).2 n := by
          have h := parseStatement_errors (parseIndentation line).2 n st.metadata
          rw [hr] at h
          exact h
        subst herr
        cases res with
        | none => rfl
        | some node => cases node <;> dsimp only

/-- C2 (amended): parse reports no UnmatchedContainer error at all — the
body error stream is produced line-locally by statement classification
(`bodyErrorsOf`), independent of the container stack, so containers still
open at end of input add no error; they simply keep the children attached
before that point (see the counterexample for the concrete behaviour). -/
theorem c2_theorem : ∀ (lines : List Str) (n : Nat) (st : BState),
    (parseBodyGo lines n st).1.errors = st.errors ++ bodyErrorsOf lines n := by
  intro lines
  induction lines with
  | nil => intro n st; simp [parseBodyGo, bodyErrorsOf]
  | cons line rest ih =>
    intro n st
    by_cases hf : trimStr line = toL "==CTIW=="
    · simp [parseBodyGo, bodyErrorsOf, hf]
    · have hstep : parseBodyGo (line :: rest) n st =
          parseBodyGo rest (n + 1) (bodyStep line n st) := by
        simp [parseBodyGo, hf]
      rw [hstep, ih, bodyStep_errors]
      have hbe : bodyErrorsOf (line :: rest) n =
          (if trimStr line = toL "==CTIW==" then []
           else if trimStr line = [] then bodyErrorsOf rest (n + 1)
           else
             (if (parseIndentation line).2 = toL "=divide=" then []
              else stmtErrors (parseIndentation line).2 n) ++
               bodyErrorsOf rest (n + 1)) := rfl
      rw [hbe, if_neg hf]
      by_cases h0 : trimStr line = []
      · rw [if_pos h0, if_pos h0]
        simp
      · rw [if_neg h0, if_neg h0]
        simp [List.append_assoc]

/-! ## C6 — containers close by keyword, not by dedent -/

/-- The head surviving `dropWhile` fails the predicate. -/
theorem dropWhile_head_false {p : Char → Bool} {l : Str} {c : Char} {r : Str}
    (h : l.dropWhile p = c :: r) : p c = false := by
  induction l with
  | nil => simp at h
  | cons a as ih =>
    by_cases ha : p a
    · rw [List.dropWhile_cons_of_pos ha] at h
      exact ih h
    · rw [List.dropWhile_cons_of_neg ha] at h
      cases h
      simpa using ha

/-- Right-trimming keeps a non-whitespace head. -/
theorem trimEnd_cons {c : Char} {r : Str} (h : isJsWS c = false) :
    ((c :: r).reverse.dropWhile isJsWS).reverse =
      c :: (r.reverse.dropWhile isJsWS).reverse := by
  rw [List.reverse_cons, List.dropWhile_append]
  by_cases he : (r.reverse.dropWhile isJsWS).isEmpty
  · rw [if_pos he]
    rw [List.isEmpty_iff] at he
    simp [he, List.dropWhile_cons, h]
  · rw [if_neg he]
    simp

/-- A line whose parsed statement content is the bare `=divide=` is
neither blank nor the document footer. -/
theorem divide_content_facts {line : Str}
    (h : (parseIndentation line).2 = toL "=divide=") :
    trimStr line ≠ toL "==CTIW==" ∧ trimStr line ≠ [] := by
  have hcontent : trimStr ((trimStartStr line).dropWhile (fun c => c = '.')) =
      toL "=divide=" := h
  cases hu : trimStartStr line with
  | nil =>
    rw [hu] at hcontent
    simp [trimStr] at hcontent
    exact absurd hcontent (by decide)
  | cons c u' =>
    have hcws : isJsWS c = false := dropWhile_head_false hu
    have hline : trimStr line = c :: (u'.reverse.dropWhile isJsWS).reverse := by
      rw [trimStr_eq_trimStart_trimEnd, hu, trimEnd_cons hcws]
    by_cases hc : c = '.'
    · subst hc
      rw [hline]
      refine ⟨?_, ?_⟩ <;> intro hx
      · have hh := congrArg (fun l => l.headI) hx
        simp [toL] at hh
      · simp at hx
    · have hdw : (c :: u').dropWhile (fun x => x = '.') = c :: u' := by
        rw [List.dropWhile_cons_of_neg (by simpa using hc)]
      rw [hu, hdw] at hcontent
      have htr : trimStr (c :: u') = c :: (u'.reverse.dropWhile isJsWS).reverse := by
        unfold trimStr
        rw [List.dropWhile_cons_of_neg (by simp [hcws])]
        exact trimEnd_cons hcws
      rw [htr] at hcontent
      rw [hline, hcontent]
      refine ⟨by decide, by decide⟩

/-- Under the all-divide stack invariant, the indent-driven pop loop of
`parseBody` is the identity (it stops at the first divide frame, and every
frame is a divide). -/
theorem popNonDivides_id {stack : List Frame} (i : Nat)
    (h : ∀ f ∈ stack, f.etype = toL "divide") :
    popNonDivides i stack = stack := by
  cases stack with
  | nil => rfl
  | cons f fs =>
    have hf := h f (List.mem_cons_self f fs)
    unfold popNonDivides
    by_cases hi : f.indent ≥ i
    · rw [if_pos hi, if_neg (not_not_intro hf)]
    · rw [if_neg hi]

/-- Every frame the body loop pushes records kind divide, so reachable
stacks satisfy the all-divide invariant. -/
theorem bodyStep_all_divide (line : Str) (n : Nat) (st : BState)
    (h : ∀ g ∈ st.stack, g.etype = toL "divide") :
    ∀ g ∈ (bodyStep line n st).stack, g.etype = toL "divide" := by
  unfold bodyStep
  by_cases h0 : trimStr line = []
  · simpa [h0] using h
  · simp only [h0, if_false]
    by_cases hcond : (decide ((parseIndentation line).2 = toL "=divide=") &&
        !st.stack.isEmpty) = true
    · simp only [hcond, if_true]
      intro g hg
      exact h g (List.mem_of_mem_tail hg)
    · simp only [hcond, if_false]
      rcases hr : parseStatement (parseIndentation line).2 n st.metadata with ⟨res, m2, errs⟩
      have hpop : ∀ g ∈ popNonDivides (parseIndentation line).1 st.stack,
          g.etype = toL "divide" := by
        rw [popNonDivides_id _ h]
        exact h
      cases res with
      | none => simpa using h
      | some node =>
        cases node with
        | property name value => simpa using hpop
        | element t p c ch =>
          dsimp only
          by_cases hd : isDivideElement (.element t p c ch) = true
          · simp only [hd, if_true]
            intro g hg
            rcases List.mem_cons.mp hg with rfl | hg'
            · rfl
            · exact hpop g hg'
          · simp only [hd, if_false]
            exact hpop
        | special t => simpa using hpop
        | errorNode msg raw => simpa using hpop

/-- C6: a body line whose stripped content is exactly the bare `=divide=`
while a container is open pops the innermost frame regardless of the
line's indentation (the indent is not even consulted); conversely, under
the all-divide stack invariant that reachable states satisfy, any other
line leaves the existing stack intact as a suffix — dedenting alone never
closes a container. -/
theorem c6_theorem :
    (∀ (line : Str) (rest : List Str) (n : Nat) (st : BState)
        (f : Frame) (fs : List Frame),
      (parseIndentation line).2 = toL "=divide=" → st.stack = f :: fs →
      parseBodyGo (line :: rest) n st =
        parseBodyGo rest (n + 1) { st with stack := fs }) ∧
    (∀ (line : Str) (n : Nat) (st : BState),
      (∀ g ∈ st.stack, g.etype = toL "divide") →
      ¬((parseIndentation line).2 = toL "=divide=" ∧ st.stack ≠ []) →
      st.stack.IsSuffix (bodyStep line n st).stack) := by
  constructor
  · intro line rest n st f fs h1 hs
    obtain ⟨hnf, hne⟩ := divide_content_facts h1
    have hstep : parseBodyGo (line :: rest) n st =
        parseBodyGo rest (n + 1) (bodyStep line n st) := by
      simp [parseBodyGo, hnf]
    rw [hstep]
    congr 1
    unfold bodyStep
    rw [if_neg hne,
      if_pos (show (decide ((parseIndentation line).2 = toL "=divide=") &&
        !st.stack.isEmpty) = true from by simp [h1, hs]), hs]
    rfl
  · intro line n st h1 h2
    unfold bodyStep
    by_cases h0 : trimStr line = []
    · simp only [h0, if_true]
      exact List.suffix_refl _
    · simp only [h0, if_false]
      have hcond : (decide ((parseIndentation line).2 = toL "=divide=") &&
          !st.stack.isEmpty) = false := by
        by_cases hd : (parseIndentation line).2 = toL "=divide="
        · have hnil : st.stack = [] := by
            by_contra hne
            exact h2 ⟨hd, hne⟩
          simp [hnil]
        · simp [hd]
      simp only [hcond, Bool.false_eq_true, if_false]
      rcases hr : parseStatement (parseIndentation line).2 n st.metadata with ⟨res, m2, errs⟩
      cases res with
      | none => exact List.suffix_refl _
      | some node =>
        rw [popNonDivides_id _ h1]
        cases node with
        | property name value => exact List.suffix_refl _
        | element t p c ch =>
          dsimp only
          by_cases hd : isDivideElement (.element t p c ch) = true
          · simp only [hd, if_true]
            exact List.suffix_cons _ _
          · simp only [hd, if_false]
            exact List.suffix_refl _
        | special t =>
          dsimp only
          exact List.suffix_refl _
        | errorNode msg raw =>
          dsimp only
          exact List.suffix_refl _

/-- C6 witness: a bare `=divide=` at line 5 pops the open frame, and a
dedented `=text=` line leaves the frame stack intact. -/
theorem c6_witness :
    parseBodyGo [toL "=divide="] 5
      ⟨[CTIWNode.element (toL "divide") [] none []],
       [⟨[0], 2, toL "divide"⟩], {}, []⟩ =
      parseBodyGo [] 6
        ⟨[CTIWNode.element (toL "divide") [] none []], [], {}, []⟩ ∧
    ([⟨[0], 2, toL "divide"⟩] : List Frame).IsSuffix
      (bodyStep (toL "=text=Shallow=") 5
        ⟨[CTIWNode.element (toL "divide") [] none []],
         [⟨[0], 2, toL "divide"⟩], {}, []⟩).stack := by
  constructor
  · exact c6_theorem.1 (toL "=divide=") [] 5
      ⟨[CTIWNode.element (toL "divide") [] none []],
       [⟨[0], 2, toL "divide"⟩], {}, []⟩
      ⟨[0], 2, toL "divide"⟩ [] (by decide) rfl
  · exact c6_theorem.2 (toL "=text=Shallow=") 5
      ⟨[CTIWNode.element (toL "divide") [] none []],
       [⟨[0], 2, toL "divide"⟩], {}, []⟩
      (by decide) (by decide)

/-! ## C4 — nesting by indentation -/

/-- C4: the claim that a child's indentation level is strictly greater
than its container's is false: with the container opened at indentation
level 1 (`..=divide=`), a following statement at the same level 1
(`..=text=Hi=`) is still attached as its child. -/
theorem c4_counterexample :
    (parseFn (toL "=CTIW=\n..=divide=\n..=text=Hi=\n==CTIW==")).document.children =
      [.element (toL "divide") [] none
        [.element (toL "text") [] (some (toL "Hi")) []]] ∧
    (parseIndentation (toL "..=divide=")).1 = 1 ∧
    (parseIndentation (toL "..=text=Hi=")).1 = 1 :=
  ⟨rfl, rfl, rfl⟩

/-- C4 (amended): the indentation level is the count of leading dots
(after left whitespace) divided by the fixed constant two, floored; and a
parsed Element/Special is attached to the innermost currently-open
container exactly when some container is open and the line's indentation
is greater than zero — regardless of how that container's recorded
indentation compares — and to the Document's top level otherwise. -/
theorem c4_theorem :
    (∀ (ws dots rest : Str),
      (∀ c ∈ ws, isJsWS c = true) → (∀ c ∈ dots, c = '.') →
      (∀ c ∈ rest.take 1, isJsWS c = false ∧ c ≠ '.') →
      parseIndentation (ws ++ dots ++ rest) = (dots.length / 2, trimStr rest)) ∧
    (∀ (line : Str) (n : Nat) (st : BState) (node : CTIWNode)
        (m2 : DocumentMetadata) (errs : List ParseError),
      trimStr line ≠ [] →
      ¬((parseIndentation line).2 = toL "=divide=" ∧ st.stack ≠ []) →
      parseStatement (parseIndentation line).2 n st.metadata =
        (some node, m2, errs) →
      (isElementNode node || isSpecialNode node) = true →
      (∀ g ∈ st.stack, g.etype = toL "divide") →
      (bodyStep line n st).body =
        (match st.stack, (parseIndentation line).1 with
         | f :: _, _ + 1 => appendAt f.path node st.body
         | _, _ => st.body ++ [node])) := by
  constructor
  · intro ws dots rest h1 h2 h3
    have hstart : trimStartStr (ws ++ dots ++ rest) = dots ++ rest := by
      unfold trimStartStr
      rw [List.append_assoc, dropWhile_append_all h1]
      cases dots with
      | nil =>
        cases rest with
        | nil => rfl
        | cons r rr =>
          simp only [List.nil_append]
          exact List.dropWhile_cons_of_neg (by
            simp [(h3 r (by simp)).1])
      | cons d dd =>
        have hd := h2 d (List.mem_cons_self d dd)
        subst hd
        exact List.dropWhile_cons_of_neg (by decide)
    have htake : (dots ++ rest).takeWhile (fun c => c = '.') = dots := by
      rw [takeWhile_append_all (fun c hc => by simp [h2 c hc])]
      cases rest with
      | nil => simp
      | cons r rr =>
        rw [List.takeWhile_cons_of_neg (by simp [(h3 r (by simp)).2])]
        simp
    have hdrop : (dots ++ rest).dropWhile (fun c => c = '.') = rest := by
      rw [dropWhile_append_all (fun c hc => by simp [h2 c hc])]
      cases rest with
      | nil => rfl
      | cons r rr =>
        exact List.dropWhile_cons_of_neg (by simp [(h3 r (by simp)).2])
    unfold parseIndentation
    dsimp only
    rw [hstart, htake, hdrop]
  · intro line n st node m2 errs h0 h2 hr h4 h5
    unfold bodyStep
    rw [if_neg h0]
    have hcond : (decide ((parseIndentation line).2 = toL "=divide=") &&
        !st.stack.isEmpty) = false := by
      by_cases hd : (parseIndentation line).2 = toL "=divide="
      · have hnil : st.stack = [] := by
          by_contra hne
          exact h2 ⟨hd, hne⟩
        simp [hnil]
      · simp [hd]
    simp only [hcond, Bool.false_eq_true, if_false]
    rw [hr]
    rw [popNonDivides_id _ h5]
    cases node with
    | property name value => simp [isElementNode, isSpecialNode] at h4
    | errorNode msg raw => simp [isElementNode, isSpecialNode] at h4
    | element t p c ch =>
      dsimp only
      cases st.stack <;> cases (parseIndentation line).1 <;> rfl
    | special t =>
      dsimp only
      cases st.stack <;> cases (parseIndentation line).1 <;> rfl

/-- C4 witness: the indentation formula at `" ....=text=Hi="` (level 2)
and the attachment of `..=text=Hi=` into an open divide frame. -/
theorem c4_witness :
    parseIndentation (toL " " ++ toL "...." ++ toL "=text=Hi=") =
      (2, trimStr (toL "=text=Hi=")) ∧
    (bodyStep (toL "..=text=Hi=") 3
      ⟨[CTIWNode.element (toL "divide") [] none []],
       [⟨[0], 0, toL "divide"⟩], {}, []⟩).body =
      appendAt [0] (CTIWNode.element (toL "text") [] (some (toL "Hi")) [])
        [CTIWNode.element (toL "divide") [] none []] := by
  constructor
  · exact c4_theorem.1 (toL " ") (toL "....") (toL "=text=Hi=")
      (by decide) (by decide) (by decide)
  · exact c4_theorem.2 (toL "..=text=Hi=") 3
      ⟨[CTIWNode.element (toL "divide") [] none []],
       [⟨[0], 0, toL "divide"⟩], {}, []⟩
      (CTIWNode.element (toL "text") [] (some (toL "Hi")) []) {} []
      (by decide) (by decide) rfl rfl (by decide)

/-! ## C5 — first-wins title metadata -/

/-- C5: the first-wins claim is false when the first title's text is
empty: for `=title==` followed by `=title=Second=` the document metadata
keeps the second declaration's text (the falsy check `!metadata.title`
treats the recorded empty string as unset), while the tree holds both
title elements. -/
theorem c5_counterexample :
    (parseFn (toL "=CTIW=\n=title==\n=title=Second=\n==CTIW==")).document.metadata.title =
      some (toL "Second") ∧
    (parseFn (toL "=CTIW=\n=title==\n=title=Second=\n==CTIW==")).document.children =
      [.element (toL "title") [] (some []) [],
       .element (toL "title") [] (some (toL "Second")) []] ∧
    some (toL "Second") ≠ (some ([] : Str)) :=
  ⟨rfl, rfl, by decide⟩

/-! ## C7 — hex-color versus identifier versus number classification -/

/-- The special characters an alphanumeric-or-hyphen character can never
be. -/
theorem alnum_facts {c : Char} (h : isAlphaNumericOrHyphen c = true) :
    isSpaceTab c = false ∧ c ≠ '\r' ∧ c ≠ '=' ∧ c ≠ ':' ∧ c ≠ '.' ∧
    c ≠ '(' ∧ c ≠ ')' ∧ c ≠ '\n' := by
  have hsp : c ≠ ' ' := fun he => absurd (he ▸ h) (by decide)
  have hht : c ≠ '\t' := fun he => absurd (he ▸ h) (by decide)
  refine ⟨by simp [isSpaceTab, hsp, hht], ?_, ?_, ?_, ?_, ?_, ?_, ?_⟩ <;>
    exact fun he => absurd (he ▸ h) (by decide)

/-- Hex digits are alphanumeric. -/
theorem isHexDigit_alnum {c : Char} (h : isHexDigit c = true) :
    isAlphaNumericOrHyphen c = true := by
  have h' : isDigit c = true ∨ ('a' ≤ c ∧ c ≤ 'f') ∨ ('A' ≤ c ∧ c ≤ 'F') := by
    simpa [isHexDigit, Bool.or_eq_true, Bool.and_eq_true,
      decide_eq_true_eq, or_assoc] using h
  unfold isAlphaNumericOrHyphen isAlpha
  rcases h' with hd | ⟨hl, hr⟩ | ⟨hl, hr⟩
  · simp [hd]
  · have hz : c ≤ 'z' := le_trans hr (by decide)
    simp [hl, hz]
  · have hz : c ≤ 'Z' := le_trans hr (by decide)
    simp [hl, hz]

/-- Digits are hex digits. -/
theorem isDigit_isHexDigit {c : Char} (h : isDigit c = true) :
    isHexDigit c = true := by
  unfold isHexDigit
  simp [h]

/-- `skipWhitespace` is the identity at a non-whitespace character. -/
theorem skipWS_cons_no {c : Char} {r : Str} (col : Nat)
    (h1 : isSpaceTab c = false) (h2 : c ≠ '\r') :
    skipWS (c :: r) col = (c :: r, col) := by
  unfold skipWS
  rw [if_neg (by
    have h1' : (decide (c = ' ') || decide (c = '\t')) = false := h1
    simp only [h1']
    simp)]
  rw [if_neg (by
    have : decide (c = '\r') = false := by simp [h2]
    simp only [this, Bool.false_and]
    simp)]

/-- The scanner at zero remaining input returns the state unchanged. -/
theorem lexGo_nil (fuel : Nat) (st : LexState) : lexGo (fuel + 1) [] st = st := rfl

/-- In non-value context the string scan is never entered. -/
theorem shouldScanString_false (input : Str) :
    shouldScanString false input = false := rfl

/-- One scanner run over an input that is entirely one alphanumeric run
starting with a letter: `scanIdentifierOrHexColor` consumes it all and
classifies it HexColor exactly when it is six hex digits. -/
theorem lexGo_alnum_run (c : Char) (cs : Str) (fuel : Nat) (st : LexState)
    (hctx : st.inValueContext = false)
    (halpha : isAlpha c = true)
    (hall : ∀ x ∈ c :: cs, isAlphaNumericOrHyphen x = true) :
    lexGo (fuel + 2) (c :: cs) st =
      { st with
        tokens := ⟨(if (c :: cs).length = 6 && (c :: cs).all isHexDigit
                    then .HEX_COLOR else .IDENTIFIER),
                   c :: cs, st.line, st.column⟩ :: st.tokens,
        column := st.column + (c :: cs).length,
        inValueContext := false } := by
  obtain ⟨hsp, hcr, heq, hco, hdo, hlp, hrp, hnl⟩ :=
    alnum_facts (hall c (List.mem_cons_self c cs))
  have hskip := skipWS_cons_no (r := cs) st.column hsp hcr
  have htake8 : ¬((c :: cs).take 8 = ctiwMarker) := by
    intro hx
    have hh := congrArg (fun l => l.head?) hx
    simp [ctiwMarker, toL] at hh
    exact heq hh
  have htake2 : ¬((c :: cs).take 2 = toL "==") := by
    intro hx
    have hh := congrArg (fun l => l.head?) hx
    simp [toL] at hh
    exact heq hh
  rw [show fuel + 2 = (fuel + 1) + 1 from rfl]
  rw [lexGo]
  simp only [hskip]
  rw [if_neg htake8, if_neg htake2, if_neg heq, if_neg hco, if_neg hdo,
    if_neg hlp, if_neg hrp, if_neg hnl]
  rw [show ({ st with column := st.column } : LexState).inValueContext =
    false from hctx]
  rw [shouldScanString_false]
  simp only [Bool.false_eq_true, if_false]
  rw [if_pos halpha]
  rw [takeWhile_all hall, dropWhile_all hall, lexGo_nil]

/-- One scanner run over an input that is entirely one hex-digit run
starting with a decimal digit: `scanNumberOrHexColor` consumes it all and
classifies it HexColor exactly when it is six characters long. -/
theorem lexGo_hex_run (c : Char) (cs : Str) (fuel : Nat) (st : LexState)
    (hctx : st.inValueContext = false)
    (hdigit : isDigit c = true)
    (hall : ∀ x ∈ c :: cs, isHexDigit x = true) :
    lexGo (fuel + 2) (c :: cs) st =
      { st with
        tokens := ⟨(if (c :: cs).length = 6 then .HEX_COLOR else .NUMBER),
                   c :: cs, st.line, st.column⟩ :: st.tokens,
        column := st.column + (c :: cs).length,
        inValueContext := false } := by
  obtain ⟨hsp, hcr, heq, hco, hdo, hlp, hrp, hnl⟩ :=
    alnum_facts (isHexDigit_alnum (hall c (List.mem_cons_self c cs)))
  have halpha : isAlpha c = false := by
    have hd : '0' ≤ c ∧ c ≤ '9' := by
      simpa [isDigit, Bool.and_eq_true, decide_eq_true_eq] using hdigit
    have h1 : ¬('a' ≤ c) := fun hx => absurd (le_trans hx hd.2) (by decide)
    have h2 : ¬('A' ≤ c) := fun hx => absurd (le_trans hx hd.2) (by decide)
    simp [isAlpha, h1, h2]
  have hskip := skipWS_cons_no (r := cs) st.column hsp hcr
  have htake8 : ¬((c :: cs).take 8 = ctiwMarker) := by
    intro hx
    have hh := congrArg (fun l => l.head?) hx
    simp [ctiwMarker, toL] at hh
    exact heq hh
  have htake2 : ¬((c :: cs).take 2 = toL "==") := by
    intro hx
    have hh := congrArg (fun l => l.head?) hx
    simp [toL] at hh
    exact heq hh
  rw [show fuel + 2 = (fuel + 1) + 1 from rfl]
  rw [lexGo]
  simp only [hskip]
  rw [if_neg htake8, if_neg htake2, if_neg heq, if_neg hco, if_neg hdo,
    if_neg hlp, if_neg hrp, if_neg hnl]
  rw [show ({ st with column := st.column } : LexState).inValueContext =
    false from hctx]
  rw [shouldScanString_false]
  simp only [Bool.false_eq_true, if_false]
  rw [if_neg (by simp [halpha]), if_pos hdigit]
  rw [takeWhile_all hall, dropWhile_all hall, lexGo_nil]

/-- A hex digit that is not a letter is a decimal digit. -/
theorem isHexDigit_not_alpha_digit {c : Char} (h : isHexDigit c = true)
    (ha : isAlpha c = false) : isDigit c = true := by
  have h' : isDigit c = true ∨ ('a' ≤ c ∧ c ≤ 'f') ∨ ('A' ≤ c ∧ c ≤ 'F') := by
    simpa [isHexDigit, Bool.or_eq_true, Bool.and_eq_true,
      decide_eq_true_eq, or_assoc] using h
  rcases h' with hd | ⟨hl, hr⟩ | ⟨hl, hr⟩
  · exact hd
  · have : isAlpha c = true := by
      have hz : c ≤ 'z' := le_trans hr (by decide)
      simp [isAlpha, hl, hz]
    rw [this] at ha
    cases ha
  · have : isAlpha c = true := by
      have hz : c ≤ 'Z' := le_trans hr (by decide)
      simp [isAlpha, hl, hz]
    rw [this] at ha
    cases ha

/-- C7: the claim that a 6-character alphanumeric run containing a non-hex
letter is classified Identifier is false when the run starts with digits:
`12345g` is split into a Number token `12345` (the maximal hex-digit
prefix) and a separate Identifier `g`; no Identifier token carries the
full run. -/
theorem c7_counterexample :
    ((tokenize (toL "12345g")).1).map (fun t => (t.type, t.value)) =
      [(.NUMBER, toL "12345"), (.IDENTIFIER, toL "g"), (.EOF, [])] ∧
    ∀ t ∈ (tokenize (toL "12345g")).1,
      ¬(t.type = .IDENTIFIER ∧ t.value = toL "12345g") := by
  refine ⟨by decide, by decide⟩

/-- C7 (amended): a bare run of exactly six hex digits tokenizes as one
HexColor token (upper or lower case); a six-character alphanumeric run
that begins with a letter and contains a non-hex character tokenizes as
one Identifier; a run of digits of any length other than six tokenizes as
one Number. (A run beginning with digits is truncated at the first
non-hex character — the counterexample — so the Identifier case requires
a letter first.) -/
theorem c7_theorem :
    (∀ s : Str, s ≠ [] → s.all isHexDigit = true → s.length = 6 →
      ((tokenize s).1).map (fun t => (t.type, t.value)) =
        [(.HEX_COLOR, s), (.EOF, [])]) ∧
    (∀ (c : Char) (cs : Str), isAlpha c = true →
      (c :: cs).all isAlphaNumericOrHyphen = true →
      (c :: cs).length = 6 → (c :: cs).all isHexDigit = false →
      ((tokenize (c :: cs)).1).map (fun t => (t.type, t.value)) =
        [(.IDENTIFIER, c :: cs), (.EOF, [])]) ∧
    (∀ s : Str, s ≠ [] → s.all isDigit = true → s.length ≠ 6 →
      ((tokenize s).1).map (fun t => (t.type, t.value)) =
        [(.NUMBER, s), (.EOF, [])]) := by
  refine ⟨?_, ?_, ?_⟩
  · intro s hne hhex hlen
    cases s with
    | nil => exact absurd rfl hne
    | cons c cs =>
      have hallhex : ∀ x ∈ c :: cs, isHexDigit x = true :=
        fun x hx => List.all_eq_true.mp hhex x hx
      unfold tokenize
      rw [show (c :: cs).length + 1 = cs.length + 2 from rfl]
      by_cases ha : isAlpha c = true
      · rw [lexGo_alnum_run c cs cs.length initLexState rfl ha
          (fun x hx => isHexDigit_alnum (hallhex x hx))]
        simp [hlen, hhex, initLexState]
      · have hd : isDigit c = true :=
          isHexDigit_not_alpha_digit (hallhex c (List.mem_cons_self c cs))
            (Bool.eq_false_iff.mpr ha)
        rw [lexGo_hex_run c cs cs.length initLexState rfl hd hallhex]
        simp [hlen, initLexState]
  · intro c cs ha hall hlen hnothex
    have hallm : ∀ x ∈ c :: cs, isAlphaNumericOrHyphen x = true :=
      fun x hx => List.all_eq_true.mp hall x hx
    unfold tokenize
    rw [show (c :: cs).length + 1 = cs.length + 2 from rfl]
    rw [lexGo_alnum_run c cs cs.length initLexState rfl ha hallm]
    simp [hnothex, initLexState]
  · intro s hne hdig hlen
    cases s with
    | nil => exact absurd rfl hne
    | cons c cs =>
      have halld : ∀ x ∈ c :: cs, isDigit x = true :=
        fun x hx => List.all_eq_true.mp hdig x hx
      have hallhex : ∀ x ∈ c :: cs, isHexDigit x = true :=
        fun x hx => isDigit_isHexDigit (halld x hx)
      unfold tokenize
      rw [show (c :: cs).length + 1 = cs.length + 2 from rfl]
      rw [lexGo_hex_run c cs cs.length initLexState rfl
        (halld c (List.mem_cons_self c cs)) hallhex]
      have h5 : ¬(cs.length = 5) := by
        intro h5
        exact hlen (by simp [h5])
      simp [initLexState, h5]

/-- C7 witness: `00ff00` is one HexColor, `BAF2Y9` one Identifier,
`12345` one Number. -/
theorem c7_witness :
    ((tokenize (toL "00ff00")).1).map (fun t => (t.type, t.value)) =
      [(.HEX_COLOR, toL "00ff00"), (.EOF, [])] ∧
    ((tokenize (toL "BAF2Y9")).1).map (fun t => (t.type, t.value)) =
      [(.IDENTIFIER, toL "BAF2Y9"), (.EOF, [])] ∧
    ((tokenize (toL "12345")).1).map (fun t => (t.type, t.value)) =
      [(.NUMBER, toL "12345"), (.EOF, [])] := by
  refine ⟨?_, ?_, ?_⟩
  · exact c7_theorem.1 (toL "00ff00") (by decide) (by decide) (by decide)
  · exact c7_theorem.2.1 'B' (toL "AF2Y9") (by decide) (by decide)
      (by decide) (by decide)
  · exact c7_theorem.2.2 (toL "12345") (by decide) (by decide) (by decide)

/-! ## C8 — trailing attribute versus closing marker in value scanning -/


/-- Alphanumeric characters are plain value characters. -/
theorem alnum_plain {c : Char} (h : isAlphaNumericOrHyphen c = true) :
    plainChar c = true := by
  obtain ⟨hsp, hcr, heq, _, _, _, _, hnl⟩ := alnum_facts h
  have hsp' : (decide (c = ' ') || decide (c = '\t')) = false := hsp
  simp only [Bool.or_eq_false_iff, decide_eq_false_iff_not] at hsp'
  simp [plainChar, isJsWS, heq, hnl, hcr, hsp'.1, hsp'.2]

/-- Plain characters are not space or tab. -/
theorem plainChar_not_spaceTab {c : Char} (h : plainChar c = true) :
    isSpaceTab c = false := by
  have hws : isJsWS c = false := plainChar_not_ws h
  unfold isJsWS at hws
  simp only [Bool.or_eq_false_iff, decide_eq_false_iff_not] at hws
  obtain ⟨⟨⟨h1, h2⟩, h3⟩, h4⟩ := hws
  simp [isSpaceTab, h1, h2]

/-- One plain character goes into the accumulated value. -/
theorem scanStringGo_cons_plain (acc : Str) (c : Char) (rest : Str)
    (heq : c ≠ '=') (hnl : c ≠ '\n') (hsp : isSpaceTab c = false) :
    scanStringGo acc (c :: rest) = scanStringGo (acc ++ [c]) rest := by
  conv_lhs => unfold scanStringGo
  rw [if_neg hnl, if_neg heq, if_neg (by simp [hsp])]

/-- The scan breaks at the closing `=`. -/
theorem scanStringGo_eq_break (acc rest : Str) :
    scanStringGo acc ('=' :: rest) = (acc, '=' :: rest) := by
  conv_lhs => unfold scanStringGo
  rw [if_neg (by decide), if_pos rfl]

/-- The string scan consumes a plain-character prefix into the value. -/
theorem scanStringGo_plain_front (v acc tail : Str)
    (h : ∀ c ∈ v, plainChar c = true) :
    scanStringGo acc (v ++ tail) = scanStringGo (acc ++ v) tail := by
  induction v generalizing acc with
  | nil => simp
  | cons c v' ih =>
    obtain ⟨heq, hnl, _⟩ := plainChar_facts (h c (List.mem_cons_self c v'))
    have hsp : isSpaceTab c = false :=
      plainChar_not_spaceTab (h c (List.mem_cons_self c v'))
    rw [List.cons_append, scanStringGo_cons_plain acc c _ heq hnl hsp,
      ih (acc ++ [c]) (fun x hx => h x (List.mem_cons_of_mem c hx))]
    simp

/-- An identifier followed by `:` always looks like an attribute. -/
theorem looksLikeAttribute_colon (id rest : Str)
    (hid : id.all isAlphaNumericOrHyphen = true) :
    looksLikeAttribute (id ++ ':' :: rest) = true := by
  unfold looksLikeAttribute
  rw [dropWhile_append_all (fun c hc => List.all_eq_true.mp hid c hc),
    List.dropWhile_cons_of_neg (by decide)]
  rfl

/-- An identifier followed by `=` looks like an attribute when non-space
content follows that `=` before the next `=`, newline or end. -/
theorem looksLikeAttribute_eq_content (id ws r : Str) (c : Char)
    (hid : id.all isAlphaNumericOrHyphen = true)
    (hws : ws.all isSpaceTab = true)
    (hc1 : isSpaceTab c = false) (hc2 : c ≠ '=') (hc3 : c ≠ '\n') :
    looksLikeAttribute (id ++ '=' :: (ws ++ c :: r)) = true := by
  unfold looksLikeAttribute
  rw [dropWhile_append_all (fun x hx => List.all_eq_true.mp hid x hx),
    List.dropWhile_cons_of_neg (by decide)]
  dsimp only
  rw [if_neg (by decide), if_pos rfl]
  rw [dropWhile_append_all (fun x hx => List.all_eq_true.mp hws x hx),
    List.dropWhile_cons_of_neg (by simp [hc1])]
  simp [hc2, hc3]

/-- An identifier followed by `=` does not look like an attribute when
only spaces and then `=`, a newline or the end of input follow. -/
theorem looksLikeAttribute_eq_close (id ws r : Str)
    (hid : id.all isAlphaNumericOrHyphen = true)
    (hws : ws.all isSpaceTab = true)
    (hr : r = [] ∨ (∃ r', r = '=' :: r') ∨ (∃ r', r = '\n' :: r')) :
    looksLikeAttribute (id ++ '=' :: (ws ++ r)) = false := by
  unfold looksLikeAttribute
  rw [dropWhile_append_all (fun x hx => List.all_eq_true.mp hid x hx),
    List.dropWhile_cons_of_neg (by decide)]
  dsimp only
  rw [if_neg (by decide), if_pos rfl]
  rw [dropWhile_append_all (fun x hx => List.all_eq_true.mp hws x hx)]
  rcases hr with rfl | ⟨r', rfl⟩ | ⟨r', rfl⟩
  · rfl
  · rw [List.dropWhile_cons_of_neg (by decide)]
    simp
  · rw [List.dropWhile_cons_of_neg (by decide)]
    simp

/-- The string scan stops at a space whose lookahead sees an attribute. -/
theorem scanStringGo_space_break (acc tail : Str)
    (hbreak : attrBreak (tail.dropWhile isSpaceTab) = true) :
    scanStringGo acc (' ' :: tail) = (acc, ' ' :: tail) := by
  conv_lhs => unfold scanStringGo
  rw [if_neg (by decide), if_neg (by decide), if_pos (by decide), if_pos hbreak]

/-- The string scan consumes a space whose lookahead sees no attribute. -/
theorem scanStringGo_space_go (acc tail : Str)
    (hbreak : attrBreak (tail.dropWhile isSpaceTab) = false) :
    scanStringGo acc (' ' :: tail) = scanStringGo (acc ++ [' ']) tail := by
  conv_lhs => unfold scanStringGo
  rw [if_neg (by decide), if_neg (by decide), if_pos (by decide),
    if_neg (by simp [hbreak])]

/-- The attribute lookahead on an identifier-led remainder reduces to
`looksLikeAttribute`. -/
theorem attrBreak_ident (d : Char) (id' tail : Str) (hd : isAlpha d = true) :
    attrBreak ((d :: id') ++ tail) = looksLikeAttribute ((d :: id') ++ tail) := by
  rw [List.cons_append]
  unfold attrBreak
  rw [← List.cons_append]
  simp [hd]

/-- C8: while scanning a value, for text after a space — an identifier
followed by `:` is an attribute and the value stops before it; an
identifier followed by `=` is an attribute exactly when non-whitespace
content follows that `=` before the next `=`, newline or end of input,
and then the value stops before the identifier; otherwise that `=` is the
value's own closing marker and the value text continues through the
identifier up to it. -/
theorem c8_theorem :
    (∀ (v id rest : Str), v.all plainChar = true → identShaped id = true →
      scanStringGo [] (v ++ ' ' :: (id ++ ':' :: rest)) =
        (v, ' ' :: (id ++ ':' :: rest))) ∧
    (∀ (v id ws r : Str) (c : Char), v.all plainChar = true →
      identShaped id = true → ws.all isSpaceTab = true →
      isSpaceTab c = false → c ≠ '=' → c ≠ '\n' →
      scanStringGo [] (v ++ ' ' :: (id ++ '=' :: (ws ++ c :: r))) =
        (v, ' ' :: (id ++ '=' :: (ws ++ c :: r)))) ∧
    (∀ (v id ws r : Str), v.all plainChar = true → identShaped id = true →
      ws.all isSpaceTab = true →
      (r = [] ∨ (∃ r', r = '=' :: r') ∨ (∃ r', r = '\n' :: r')) →
      scanStringGo [] (v ++ ' ' :: (id ++ '=' :: (ws ++ r))) =
        (v ++ ' ' :: id, '=' :: (ws ++ r))) := by
  refine ⟨?_, ?_, ?_⟩
  · intro v id rest hv hid
    cases hi : id with
    | nil => rw [hi] at hid; exact absurd hid (by decide)
    | cons d id' =>
      rw [hi] at hid
      have hd : isAlpha d = true ∧ (d :: id').all isAlphaNumericOrHyphen = true := by
        simpa [identShaped, Bool.and_eq_true] using hid
      rw [scanStringGo_plain_front v [] _ (fun c hc => List.all_eq_true.mp hv c hc),
        List.nil_append]
      apply scanStringGo_space_break
      rw [show ((d :: id') ++ ':' :: rest : Str) =
        d :: (id' ++ ':' :: rest) from rfl]
      rw [List.dropWhile_cons_of_neg (by
        simp [plainChar_not_spaceTab (alnum_plain
          (List.all_eq_true.mp hd.2 d (List.mem_cons_self d id')))])]
      rw [show (d :: (id' ++ ':' :: rest) : Str) =
        (d :: id') ++ ':' :: rest from rfl]
      rw [attrBreak_ident d id' _ hd.1]
      exact looksLikeAttribute_colon _ _ hd.2
  · intro v id ws r c hv hid hws hc1 hc2 hc3
    cases hi : id with
    | nil => rw [hi] at hid; exact absurd hid (by decide)
    | cons d id' =>
      rw [hi] at hid
      have hd : isAlpha d = true ∧ (d :: id').all isAlphaNumericOrHyphen = true := by
        simpa [identShaped, Bool.and_eq_true] using hid
      rw [scanStringGo_plain_front v [] _ (fun x hx => List.all_eq_true.mp hv x hx),
        List.nil_append]
      apply scanStringGo_space_break
      rw [show ((d :: id') ++ '=' :: (ws ++ c :: r) : Str) =
        d :: (id' ++ '=' :: (ws ++ c :: r)) from rfl]
      rw [List.dropWhile_cons_of_neg (by
        simp [plainChar_not_spaceTab (alnum_plain
          (List.all_eq_true.mp hd.2 d (List.mem_cons_self d id')))])]
      rw [show (d :: (id' ++ '=' :: (ws ++ c :: r)) : Str) =
        (d :: id') ++ '=' :: (ws ++ c :: r) from rfl]
      rw [attrBreak_ident d id' _ hd.1]
      exact looksLikeAttribute_eq_content _ _ _ _ hd.2 hws hc1 hc2 hc3
  · intro v id ws r hv hid hws hr
    cases hi : id with
    | nil => rw [hi] at hid; exact absurd hid (by decide)
    | cons d id' =>
      rw [hi] at hid
      have hd : isAlpha d = true ∧ (d :: id').all isAlphaNumericOrHyphen = true := by
        simpa [identShaped, Bool.and_eq_true] using hid
      rw [scanStringGo_plain_front v [] _ (fun x hx => List.all_eq_true.mp hv x hx),
        List.nil_append]
      rw [scanStringGo_space_go _ _ (by
        rw [show ((d :: id') ++ '=' :: (ws ++ r) : Str) =
          d :: (id' ++ '=' :: (ws ++ r)) from rfl]
        rw [List.dropWhile_cons_of_neg (by
          simp [plainChar_not_spaceTab (alnum_plain
            (List.all_eq_true.mp hd.2 d (List.mem_cons_self d id')))])]
        rw [show (d :: (id' ++ '=' :: (ws ++ r)) : Str) =
          (d :: id') ++ '=' :: (ws ++ r) from rfl]
        rw [attrBreak_ident d id' _ hd.1]
        exact looksLikeAttribute_eq_close _ _ _ hd.2 hws hr)]
      rw [show ((d :: id') ++ '=' :: (ws ++ r) : Str) =
        d :: (id' ++ '=' :: (ws ++ r)) from rfl]
      obtain ⟨heqd, hnld, _⟩ := plainChar_facts (alnum_plain
        (List.all_eq_true.mp hd.2 d (List.mem_cons_self d id')))
      rw [scanStringGo_cons_plain _ d _ heqd hnld
        (plainChar_not_spaceTab (alnum_plain
          (List.all_eq_true.mp hd.2 d (List.mem_cons_self d id'))))]
      rw [scanStringGo_plain_front id' _ _ (fun x hx => alnum_plain
        (List.all_eq_true.mp hd.2 x (List.mem_cons_of_mem d hx)))]
      rw [scanStringGo_eq_break]
      simp

/-- C8 witness: inside `Wow id:big=` and `Wow color=FF0000=` the value
scan stops before the trailing attribute, while in `Hello World=` the
value runs through `World` up to the closing `=`. -/
theorem c8_witness :
    scanStringGo [] (toL "Wow" ++ ' ' :: (toL "id" ++ ':' :: toL "big=")) =
      (toL "Wow", ' ' :: (toL "id" ++ ':' :: toL "big=")) ∧
    scanStringGo []
      (toL "Wow" ++ ' ' :: (toL "color" ++ '=' :: (toL "" ++ 'F' :: toL "F0000="))) =
      (toL "Wow", ' ' :: (toL "color" ++ '=' :: (toL "" ++ 'F' :: toL "F0000="))) ∧
    scanStringGo [] (toL "Hello" ++ ' ' :: (toL "World" ++ '=' :: (toL "" ++ []))) =
      (toL "Hello" ++ ' ' :: toL "World", '=' :: (toL "" ++ [])) := by
  refine ⟨?_, ?_, ?_⟩
  · exact c8_theorem.1 (toL "Wow") (toL "id") (toL "big=") (by decide) (by decide)
  · exact c8_theorem.2.1 (toL "Wow") (toL "color") (toL "") (toL "F0000=") 'F'
      (by decide) (by decide) (by decide) (by decide) (by decide) (by decide)
  · exact c8_theorem.2.2 (toL "Hello") (toL "World") (toL "") []
      (by decide) (by decide) (by decide) (Or.inl rfl)

/-! ## C5 — general first-wins behaviour (amended) -/

theorem splitOnChar_ne_nil (sep : Char) (s : Str) : splitOnChar sep s ≠ [] := by
  cases s with
  | nil => simp [splitOnChar]
  | cons c rest =>
    unfold splitOnChar
    cases h : splitOnChar sep rest with
    | nil => simp
    | cons g gs => by_cases hc : c = sep <;> simp [hc]

/-- Splitting on newline peels off a newline-free first line. -/
theorem splitOnChar_append_newline (l rest : Str) (h : ∀ c ∈ l, c ≠ '\n') :
    splitOnChar '\n' (l ++ '\n' :: rest) = l :: splitOnChar '\n' rest := by
  induction l with
  | nil =>
    rw [List.nil_append]
    conv_lhs => unfold splitOnChar
    rcases hs : splitOnChar '\n' rest with _ | ⟨g, gs⟩
    · exact absurd hs (splitOnChar_ne_nil '\n' rest)
    · simp
  | cons c l' ih =>
    rw [List.cons_append]
    conv_lhs => unfold splitOnChar
    rw [ih (fun x hx => h x (List.mem_cons_of_mem c hx))]
    simp [h c (List.mem_cons_self c l')]

/-- `findContentEnd` on a plain value closed by a final `=`. -/
theorem findContentEnd_plain (t : Str) (h : ∀ c ∈ t, c ≠ '=') :
    findContentEnd (t ++ ['=']) = some (t, []) := by
  induction t with
  | nil => rfl
  | cons c t' ih =>
    rw [List.cons_append]
    unfold findContentEnd
    rw [if_neg (by simp [h c (List.mem_cons_self c t')])]
    rw [ih (fun x hx => h x (List.mem_cons_of_mem c hx))]
    rfl

/-- `takeWhile (≠ =)` of a plain value closed by a `=`. -/
theorem takeWhile_ne_eq_plain (t tail : Str)
    (h : ∀ c ∈ t, plainChar c = true) :
    (t ++ '=' :: tail).takeWhile (fun c => !(c = '=')) = t := by
  rw [takeWhile_append_all (fun c hc => by
    simp [(plainChar_facts (h c hc)).1])]
  simp

/-- `parseElement` over a plain non-empty content closed by a `=`. -/
theorem parseElement_content (ety t : Str) (ht : t ≠ [])
    (hp : ∀ c ∈ t, plainChar c = true) :
    parseElement ety (t ++ toL "=") = .element ety [] (some t) [] := by
  cases t with
  | nil => exact absurd rfl ht
  | cons c t' =>
    have hc := plainChar_facts (hp c (List.mem_cons_self c t'))
    have hcsp : c ≠ ' ' := by
      intro he
      subst he
      exact absurd hc.2.2 (by decide)
    unfold parseElement
    rw [if_neg (by simp)]
    rw [if_neg (by simp [hcsp])]
    rw [show ((c :: t') ++ toL "=" : Str) = (c :: t') ++ ['='] from rfl]
    rw [findContentEnd_plain (c :: t')
      (fun x hx => (plainChar_facts (hp x hx)).1)]
    dsimp only [Option.map]
    rw [trimStr_plain hp]
    rfl

/-- `parseStatement` over a general `=title=<text>=` line: it yields the
title element and sets the metadata title exactly when the recorded title
is still unset or empty. -/
theorem parseStatement_title (t : Str) (n : Nat) (m : DocumentMetadata)
    (ht : t ≠ []) (hp : ∀ c ∈ t, plainChar c = true) :
    parseStatement (toL "=title=" ++ (t ++ toL "=")) n m =
      (some (.element (toL "title") [] (some t) []),
       (if !tsTruthy m.title then { m with title := some t } else m), []) := by
  have hline : (toL "=title=" ++ (t ++ toL "=") : Str) =
      '=' :: (toL "title" ++ ('=' :: (t ++ toL "="))) := rfl
  unfold parseStatement
  rw [if_neg (by rw [hline]; simp)]
  rw [if_neg (by
    rw [show startsWithStr (toL "=(") (toL "=title=" ++ (t ++ toL "=")) =
      false from rfl]
    simp)]
  unfold parsePropertyOrElement
  dsimp only
  rw [show (toL "=title=" ++ (t ++ toL "=") : Str).drop 1 =
    toL "title" ++ ('=' :: (t ++ toL "=")) from rfl]
  rw [takeWhile_ne_eq_plain (toL "title") _ (by decide)]
  rw [if_neg (by
    simp only [List.length_append, List.length_cons]
    have : (toL "title").length = 5 := rfl
    omega)]
  rw [show toLowerStr (trimStr (toL "title")) = toL "title" from rfl]
  rw [if_neg (by decide), if_pos rfl]
  rw [show (toL "title" ++ ('=' :: (t ++ toL "=")) : Str).drop
    ((toL "title").length + 1) = t ++ toL "=" from by
    rw [show (toL "title").length + 1 = (toL "title=").length from rfl]
    rw [show (toL "title" ++ ('=' :: (t ++ toL "=")) : Str) =
      toL "title=" ++ (t ++ toL "=") from rfl]
    exact List.drop_left _ _]
  rw [parseElement_content _ t ht hp]
  unfold titleValue
  rw [show (t ++ toL "=" : Str) = t ++ '=' :: [] from rfl]
  rw [takeWhile_ne_eq_plain t [] hp, trimStr_plain hp]

/-- A general `=title=<text>=` line is neither blank nor the footer nor a
bare `=divide=`, and its statement content is itself. -/
theorem titleLine_facts (t : Str) (_ht : t ≠ [])
    (hp : ∀ c ∈ t, plainChar c = true) :
    (∀ c ∈ (toL "=title=" ++ (t ++ toL "=") : Str), isJsWS c = false) ∧
    trimStr (toL "=title=" ++ (t ++ toL "=")) =
      toL "=title=" ++ (t ++ toL "=") ∧
    trimStr (toL "=title=" ++ (t ++ toL "=")) ≠ toL "==CTIW==" ∧
    trimStr (toL "=title=" ++ (t ++ toL "=")) ≠ [] ∧
    (parseIndentation (toL "=title=" ++ (t ++ toL "="))).2 =
      toL "=title=" ++ (t ++ toL "=") ∧
    (parseIndentation (toL "=title=" ++ (t ++ toL "="))).2 ≠ toL "=divide=" := by
  have hnw : ∀ c ∈ (toL "=title=" ++ (t ++ toL "=") : Str), isJsWS c = false := by
    intro c hc
    rcases List.mem_append.mp hc with hh | hh
    · have hfix : ∀ x ∈ (toL "=title=" : Str), isJsWS x = false := by decide
      exact hfix c hh
    · rcases List.mem_append.mp hh with hh2 | hh2
      · exact plainChar_not_ws (hp c hh2)
      · have hfix : ∀ x ∈ (toL "=" : Str), isJsWS x = false := by decide
        exact hfix c hh2
  have htrim : trimStr (toL "=title=" ++ (t ++ toL "=")) =
      toL "=title=" ++ (t ++ toL "=") := trimStr_noWS hnw
  have hfoot : trimStr (toL "=title=" ++ (t ++ toL "=")) ≠ toL "==CTIW==" := by
    rw [htrim]
    intro hx
    rw [show (toL "=title=" ++ (t ++ toL "=") : Str) =
      '=' :: 't' :: (toL "itle" ++ ('=' :: (t ++ toL "="))) from rfl] at hx
    simp [toL] at hx
  have hnil : trimStr (toL "=title=" ++ (t ++ toL "=")) ≠ [] := by
    rw [htrim]
    intro hx
    rw [show (toL "=title=" ++ (t ++ toL "=") : Str) =
      '=' :: 't' :: (toL "itle" ++ ('=' :: (t ++ toL "="))) from rfl] at hx
    simp at hx
  have hindent : (parseIndentation (toL "=title=" ++ (t ++ toL "="))).2 =
      toL "=title=" ++ (t ++ toL "=") := by
    unfold parseIndentation trimStartStr
    dsimp only
    rw [show (toL "=title=" ++ (t ++ toL "=") : Str) =
      '=' :: (toL "title" ++ ('=' :: (t ++ toL "="))) from rfl]
    rw [List.dropWhile_cons_of_neg (by decide),
      List.dropWhile_cons_of_neg (by decide)]
    exact htrim
  refine ⟨hnw, htrim, hfoot, hnil, hindent, ?_⟩
  rw [hindent]
  intro hx
  rw [show (toL "=title=" ++ (t ++ toL "=") : Str) =
    '=' :: 't' :: (toL "itle" ++ ('=' :: (t ++ toL "="))) from rfl] at hx
  simp [toL] at hx

/-- One body step over a general `=title=<text>=` line with no open
container: the title element is appended at top level and the metadata
title is set first-wins (with the falsy-empty caveat). -/
theorem bodyStep_title (t : Str) (n : Nat) (st : BState)
    (ht : t ≠ []) (hp : ∀ c ∈ t, plainChar c = true)
    (hstack : st.stack = []) :
    bodyStep (toL "=title=" ++ (t ++ toL "=")) n st =
      { st with
        body := st.body ++ [.element (toL "title") [] (some t) []],
        metadata := if !tsTruthy st.metadata.title
          then { st.metadata with title := some t } else st.metadata } := by
  obtain ⟨hnw, htrim, hfoot, hnil, hindent, hndiv⟩ := titleLine_facts t ht hp
  unfold bodyStep
  rw [if_neg hnil]
  rw [if_neg (by simp [hndiv])]
  rw [hindent, parseStatement_title t n st.metadata ht hp]
  dsimp only
  rw [hstack]
  dsimp only [popNonDivides]
  simp [show isDivideElement (CTIWNode.element (toL "title") [] (some t) []) =
    false from rfl]

/-- C5 (amended): with a non-empty first title text, first-wins holds in
general: parsing a document with two top-level title declarations records
the first declaration's text as the metadata title while both visible
title elements appear in order, with no errors. (An empty first title is
instead overwritten — see the counterexample.) -/
theorem c5_theorem : ∀ (t1 t2 : Str),
    t1 ≠ [] → t2 ≠ [] →
    (∀ c ∈ t1, plainChar c = true) → (∀ c ∈ t2, plainChar c = true) →
    parseFn (toL "=CTIW=" ++ '\n' :: ((toL "=title=" ++ (t1 ++ toL "=")) ++
        '\n' :: ((toL "=title=" ++ (t2 ++ toL "=")) ++
          '\n' :: toL "==CTIW=="))) =
      ⟨⟨[.element (toL "title") [] (some t1) [],
         .element (toL "title") [] (some t2) []],
        { title := some t1 }⟩, []⟩ := by
  intro t1 t2 h1 h2 hp1 hp2
  obtain ⟨hnw1, htrim1, hfoot1, hnil1, hind1, hndiv1⟩ := titleLine_facts t1 h1 hp1
  obtain ⟨hnw2, htrim2, hfoot2, hnil2, hind2, hndiv2⟩ := titleLine_facts t2 h2 hp2
  have hln1 : ∀ c ∈ (toL "=title=" ++ (t1 ++ toL "=") : Str), c ≠ '\n' := by
    intro c hc he
    subst he
    exact absurd (hnw1 '\n' hc) (by decide)
  have hln2 : ∀ c ∈ (toL "=title=" ++ (t2 ++ toL "=") : Str), c ≠ '\n' := by
    intro c hc he
    subst he
    exact absurd (hnw2 '\n' hc) (by decide)
  unfold parseFn
  rw [splitOnChar_append_newline _ _ (by decide),
    splitOnChar_append_newline _ _ hln1,
    splitOnChar_append_newline _ _ hln2,
    show splitOnChar '\n' (toL "==CTIW==") = [toL "==CTIW=="] from rfl]
  dsimp only
  rw [show skipEmpty (toL "=CTIW=" ::
      (toL "=title=" ++ (t1 ++ toL "=")) ::
      (toL "=title=" ++ (t2 ++ toL "=")) :: [toL "==CTIW=="]) 1 =
    (toL "=CTIW=" ::
      (toL "=title=" ++ (t1 ++ toL "=")) ::
      (toL "=title=" ++ (t2 ++ toL "=")) :: [toL "==CTIW=="], 1) from by
    unfold skipEmpty
    rw [if_neg (by decide)]]
  dsimp only
  rw [if_pos (by decide : trimStr (toL "=CTIW=") = toL "=CTIW=")]
  dsimp only
  rw [show parseBodyGo ((toL "=title=" ++ (t1 ++ toL "=")) ::
      (toL "=title=" ++ (t2 ++ toL "=")) :: [toL "==CTIW=="]) 2
      ⟨[], [], {}, []⟩ =
    parseBodyGo ((toL "=title=" ++ (t2 ++ toL "=")) :: [toL "==CTIW=="]) 3
      (bodyStep (toL "=title=" ++ (t1 ++ toL "=")) 2 ⟨[], [], {}, []⟩) from by
    conv_lhs => unfold parseBodyGo
    rw [if_neg hfoot1]]
  rw [bodyStep_title t1 2 ⟨[], [], {}, []⟩ h1 hp1 rfl]
  rw [show (if !tsTruthy (⟨[], [], {}, []⟩ : BState).metadata.title
      then { (⟨[], [], {}, []⟩ : BState).metadata with title := some t1 }
      else (⟨[], [], {}, []⟩ : BState).metadata) =
    ({ title := some t1 } : DocumentMetadata) from by simp [tsTruthy]]
  rw [show parseBodyGo ((toL "=title=" ++ (t2 ++ toL "=")) ::
      [toL "==CTIW=="]) 3
      ⟨[] ++ [.element (toL "title") [] (some t1) []], [],
       { title := some t1 }, []⟩ =
    parseBodyGo [toL "==CTIW=="] 4
      (bodyStep (toL "=title=" ++ (t2 ++ toL "=")) 3
        ⟨[] ++ [.element (toL "title") [] (some t1) []], [],
         { title := some t1 }, []⟩) from by
    conv_lhs => unfold parseBodyGo
    rw [if_neg hfoot2]]
  rw [bodyStep_title t2 3 _ h2 hp2 rfl]
  rw [show (if !tsTruthy (⟨[] ++ [.element (toL "title") [] (some t1) []], [],
      { title := some t1 }, []⟩ : BState).metadata.title
      then { (⟨[] ++ [.element (toL "title") [] (some t1) []], [],
        { title := some t1 }, []⟩ : BState).metadata with title := some t2 }
      else (⟨[] ++ [.element (toL "title") [] (some t1) []], [],
        { title := some t1 }, []⟩ : BState).metadata) =
    ({ title := some t1 } : DocumentMetadata) from by
    simp [tsTruthy, h1]]
  rw [show parseBodyGo [toL "==CTIW=="] 4
      ⟨([] ++ [.element (toL "title") [] (some t1) []]) ++
        [.element (toL "title") [] (some t2) []], [],
       { title := some t1 }, []⟩ =
    (⟨([] ++ [.element (toL "title") [] (some t1) []]) ++
        [.element (toL "title") [] (some t2) []], [],
      { title := some t1 }, []⟩, [toL "==CTIW=="], 4) from by
    unfold parseBodyGo
    rw [if_pos (by decide)]]
  dsimp only
  rw [show skipEmpty [toL "==CTIW=="] 4 = ([toL "==CTIW=="], 4) from by
    unfold skipEmpty
    rw [if_neg (by decide)]]
  dsimp only
  rw [if_pos (by decide : trimStr (toL "==CTIW==") = toL "==CTIW==")]
  rfl

/-- C5 witness: first-wins at the concrete non-empty pair
`First`/`Second`. -/
theorem c5_witness :
    parseFn (toL "=CTIW=" ++ '\n' :: ((toL "=title=" ++ (toL "First" ++ toL "=")) ++
        '\n' :: ((toL "=title=" ++ (toL "Second" ++ toL "=")) ++
          '\n' :: toL "==CTIW=="))) =
      ⟨⟨[.element (toL "title") [] (some (toL "First")) [],
         .element (toL "title") [] (some (toL "Second")) []],
        { title := some (toL "First") }⟩, []⟩ :=
  c5_theorem (toL "First") (toL "Second") (by decide) (by decide)
    (by decide) (by decide)

/-! ## C10 — children only under divide elements -/

theorem parseElement_nodeOK (ety rem : Str) :
    nodeOKb (parseElement ety rem) = true := by
  unfold parseElement
  split
  · simp [nodeOKb, listOKb]
  · split
    · simp [nodeOKb, listOKb]
    · split
      · simp [nodeOKb, listOKb]
      · simp [nodeOKb, listOKb]

theorem parseDocProperty_nodeOK (name rem : Str) :
    nodeOKb (parseDocProperty name rem) = true := by
  unfold parseDocProperty
  dsimp only
  split
  · split
    · rfl
    · rfl
  · rfl

theorem parseSpecialElement_nodeOK {line : Str} {n : Nat} {node : CTIWNode}
    (h : (parseSpecialElement line n).1 = some node) : nodeOKb node = true := by
  unfold parseSpecialElement at h
  split at h
  · split at h
    · simp at h
      subst h
      rfl
    · simp at h
  · simp at h

/-- Every node `parseStatement` can produce satisfies the invariant on its
own: elements come out of `parseElement` with empty children, specials and
properties have none. -/
theorem parseStatement_nodeOK {line : Str} {n : Nat} {m : DocumentMetadata}
    {node : CTIWNode} (h : (parseStatement line n m).1 = some node) :
    nodeOKb node = true := by
  unfold parseStatement at h
  split at h
  · simp at h
  · split at h
    · dsimp only at h
      exact parseSpecialElement_nodeOK h
    · unfold parsePropertyOrElement at h
      dsimp only at h
      split at h
      · simp at h
      · split at h
        · simp at h
          subst h
          exact parseDocProperty_nodeOK _ _
        · split at h
          · simp at h
            subst h
            exact parseElement_nodeOK _ _
          · split at h
            · simp at h
              subst h
              exact parseElement_nodeOK _ _
            · simp at h

theorem listOKb_append (l1 l2 : List CTIWNode) :
    listOKb (l1 ++ l2) = (listOKb l1 && listOKb l2) := by
  induction l1 with
  | nil => simp [listOKb]
  | cons nd rest ih => simp [listOKb, ih, Bool.and_assoc]

theorem listOKb_get {body : List CTIWNode} {i : Nat} {nd : CTIWNode}
    (hok : listOKb body = true) (hget : body.get? i = some nd) :
    nodeOKb nd = true := by
  induction body generalizing i with
  | nil => simp at hget
  | cons x xs ih =>
    simp only [listOKb, Bool.and_eq_true] at hok
    cases i with
    | zero =>
      simp only [List.get?_cons_zero, Option.some.injEq] at hget
      rw [← hget]
      exact hok.1
    | succ j =>
      simp only [List.get?_cons_succ] at hget
      exact ih hok.2 hget

theorem modifyIdx_get_self {g : CTIWNode → CTIWNode} {i : Nat}
    {body : List CTIWNode} {nd : CTIWNode} (h : body.get? i = some nd) :
    (modifyIdx g i body).get? i = some (g nd) := by
  induction body generalizing i with
  | nil => simp at h
  | cons x xs ih =>
    cases i with
    | zero =>
      simp only [List.get?_cons_zero, Option.some.injEq] at h
      rw [← h]
      rfl
    | succ j =>
      simp only [List.get?_cons_succ] at h
      simp only [modifyIdx, List.get?_cons_succ]
      exact ih h

theorem modifyIdx_get_other {g : CTIWNode → CTIWNode} {i k : Nat}
    {body : List CTIWNode} (h : i ≠ k) :
    (modifyIdx g i body).get? k = body.get? k := by
  induction body generalizing i k with
  | nil => simp [modifyIdx]
  | cons x xs ih =>
    cases i with
    | zero =>
      cases k with
      | zero => exact absurd rfl h
      | succ k' => rfl
    | succ j =>
      cases k with
      | zero => rfl
      | succ k' =>
        simp only [modifyIdx, List.get?_cons_succ]
        exact ih (fun he => h (by rw [he]))

theorem listOKb_modifyIdx {g : CTIWNode → CTIWNode} {i : Nat}
    {body : List CTIWNode} {nd : CTIWNode}
    (hok : listOKb body = true) (hget : body.get? i = some nd)
    (hg : nodeOKb (g nd) = true) :
    listOKb (modifyIdx g i body) = true := by
  induction body generalizing i with
  | nil => simp at hget
  | cons x xs ih =>
    simp only [listOKb, Bool.and_eq_true] at hok
    cases i with
    | zero =>
      simp only [List.get?_cons_zero, Option.some.injEq] at hget
      subst hget
      simp [modifyIdx, listOKb, hg, hok.2]
    | succ j =>
      simp only [List.get?_cons_succ] at hget
      simp only [modifyIdx, listOKb, Bool.and_eq_true]
      exact ⟨hok.1, ih hok.2 hget⟩

theorem getAt_single (i : Nat) (forest : List CTIWNode) :
    getAt [i] forest = forest.get? i := by
  unfold getAt
  rcases hg : forest.get? i with _ | nd
  · rfl
  · cases nd <;> rfl

theorem getAt_cons_elem {i : Nat} {rest : List Nat} {forest : List CTIWNode}
    {t : Str} {pr : List (Str × Str)} {c : Option Str} {ch : List CTIWNode}
    (hg : forest.get? i = some (.element t pr c ch)) (hr : rest ≠ []) :
    getAt (i :: rest) forest = getAt rest ch := by
  unfold getAt
  rw [hg]
  cases rest with
  | nil => exact absurd rfl hr
  | cons k r => rfl

theorem get?_append_low {α : Type} {l1 l2 : List α} {i : Nat}
    (h : i < l1.length) : (l1 ++ l2).get? i = l1.get? i := by
  induction l1 generalizing i with
  | nil => simp at h
  | cons x xs ih =>
    cases i with
    | zero => rfl
    | succ j =>
      simp only [List.cons_append, List.get?_cons_succ]
      exact ih (Nat.lt_of_succ_lt_succ h)

theorem get?_concat_len {α : Type} (l : List α) (a : α) :
    (l ++ [a]).get? l.length = some a := by
  induction l with
  | nil => rfl
  | cons x xs ih =>
    simp only [List.cons_append, List.length_cons, List.get?_cons_succ]
    exact ih

theorem getAt_append {p : List Nat} {body l : List CTIWNode} {nd : CTIWNode}
    (h : getAt p body = some nd) : getAt p (body ++ l) = some nd := by
  cases p with
  | nil => simp [getAt] at h
  | cons i rest =>
    rcases hg : body.get? i with _ | nd0
    · unfold getAt at h
      rw [hg] at h
      cases rest <;> simp at h
    · have hlt : i < body.length := by
        by_contra hge
        rw [List.get?_eq_none.mpr (Nat.le_of_not_lt hge)] at hg
        exact absurd hg (by simp)
      have hg2 : (body ++ l).get? i = some nd0 := by
        rw [get?_append_low hlt]
        exact hg
      unfold getAt at h ⊢
      rw [hg] at h
      rw [hg2]
      exact h

theorem getAt_concat_root (body : List CTIWNode) (node : CTIWNode) :
    getAt [body.length] (body ++ [node]) = some node := by
  rw [getAt_single]
  exact get?_concat_len body node

theorem countAt_getAt {p : List Nat} {body : List CTIWNode} {t : Str}
    {pr : List (Str × Str)} {c : Option Str} {ch : List CTIWNode}
    (h : getAt p body = some (.element t pr c ch)) :
    countAt p body = ch.length := by
  induction p generalizing body with
  | nil => simp [getAt] at h
  | cons i rest ih =>
    rcases hg : body.get? i with _ | nd0
    · unfold getAt at h
      rw [hg] at h
      cases rest <;> simp at h
    · cases rest with
      | nil =>
        unfold getAt at h
        rw [hg] at h
        rcases nd0 with ⟨t0, pr0, c0, ch0⟩ | s0 | ⟨n0, v0⟩ | ⟨m0, r0⟩ <;> simp at h
        obtain ⟨h1, h2, h3, h4⟩ := h
        simp only [countAt, hg, h4]
      | cons k r =>
        rcases nd0 with ⟨t0, pr0, c0, ch0⟩ | s0 | ⟨n0, v0⟩ | ⟨m0, r0⟩
        · rw [getAt_cons_elem hg (by simp)] at h
          simp only [countAt, hg]
          exact ih h
        all_goals
          unfold getAt at h
          rw [hg] at h
          simp at h

/-- The one-step equation of `appendAt` at a non-empty path. -/
theorem appendAt_cons (i : Nat) (rest : List Nat) (child : CTIWNode)
    (forest : List CTIWNode) :
    appendAt (i :: rest) child forest =
      modifyIdx
        (fun nd =>
          match nd with
          | .element t p c ch => .element t p c (appendAt rest child ch)
          | nd => nd)
        i forest := rfl

/-- `appendAt` through an element index rewrites just that element's
children. -/
theorem appendAt_get_elem {i : Nat} {rest : List Nat} {child : CTIWNode}
    {forest : List CTIWNode} {t : Str} {pr : List (Str × Str)}
    {c : Option Str} {ch : List CTIWNode}
    (hg : forest.get? i = some (.element t pr c ch)) :
    (appendAt (i :: rest) child forest).get? i =
      some (.element t pr c (appendAt rest child ch)) := by
  rw [appendAt_cons, modifyIdx_get_self hg]

theorem appendAt_listOKb {p : List Nat} {body : List CTIWNode}
    {node : CTIWNode} {pr : List (Str × Str)} {c : Option Str}
    {ch : List CTIWNode}
    (hok : listOKb body = true) (hnode : nodeOKb node = true)
    (hget : getAt p body = some (.element (toL "divide") pr c ch)) :
    listOKb (appendAt p node body) = true := by
  induction p generalizing body with
  | nil => simp [getAt] at hget
  | cons i rest ih =>
    rcases hg : body.get? i with _ | nd0
    · unfold getAt at hget
      rw [hg] at hget
      cases rest <;> simp at hget
    · rw [appendAt_cons]
      cases rest with
      | nil =>
        unfold getAt at hget
        rw [hg] at hget
        rcases nd0 with ⟨t0, pr0, c0, ch0⟩ | s0 | ⟨n0, v0⟩ | ⟨m0, r0⟩ <;> simp at hget
        obtain ⟨h1, h2, h3, h4⟩ := hget
        subst h1
        subst h4
        have hnd := listOKb_get hok hg
        simp only [nodeOKb, Bool.and_eq_true] at hnd
        refine listOKb_modifyIdx hok hg ?_
        simp [nodeOKb, appendAt, listOKb_append, listOKb, hnd.2, hnode]
      | cons k r =>
        rcases nd0 with ⟨t0, pr0, c0, ch0⟩ | s0 | ⟨n0, v0⟩ | ⟨m0, r0⟩
        · rw [getAt_cons_elem hg (by simp)] at hget
          have hch0 : ch0 ≠ [] := by
            intro he
            subst he
            unfold getAt at hget
            simp at hget
          have hnd := listOKb_get hok hg
          simp only [nodeOKb, Bool.and_eq_true, Bool.or_eq_true] at hnd
          have ht0 : t0 = toL "divide" := by
            rcases hnd.1 with hd | he
            · exact of_decide_eq_true hd
            · simp at he
              exact absurd he hch0
          subst ht0
          refine listOKb_modifyIdx hok hg ?_
          simp [nodeOKb, ih hnd.2 hget]
        all_goals
          unfold getAt at hget
          rw [hg] at hget
          simp at hget

theorem getAt_appendAt_shape {q : List Nat} {body : List CTIWNode}
    {node : CTIWNode} {p : List Nat} {t : Str} {pr : List (Str × Str)}
    {c : Option Str} {ch : List CTIWNode}
    (h : getAt q body = some (.element t pr c ch)) :
    ∃ ch2, getAt q (appendAt p node body) = some (.element t pr c ch2) := by
  induction q generalizing p body ch with
  | nil => simp [getAt] at h
  | cons i rest ih =>
    cases p with
    | nil => exact ⟨ch, getAt_append h⟩
    | cons j prest =>
      rcases hg : body.get? i with _ | nd0
      · unfold getAt at h
        rw [hg] at h
        cases rest <;> simp at h
      · by_cases hij : j = i
        · subst hij
          cases rest with
          | nil =>
            unfold getAt at h
            rw [hg] at h
            rcases nd0 with ⟨t0, pr0, c0, ch0⟩ | s0 | ⟨n0, v0⟩ | ⟨m0, r0⟩ <;> simp at h
            obtain ⟨h1, h2, h3, h4⟩ := h
            subst h1
            subst h2
            subst h3
            subst h4
            refine ⟨appendAt prest node ch0, ?_⟩
            rw [getAt_single, appendAt_get_elem hg]
          | cons k r =>
            rcases nd0 with ⟨t0, pr0, c0, ch0⟩ | s0 | ⟨n0, v0⟩ | ⟨m0, r0⟩
            · rw [getAt_cons_elem hg (by simp)] at h
              obtain ⟨ch2, hch2⟩ := ih h
              refine ⟨ch2, ?_⟩
              rw [getAt_cons_elem (appendAt_get_elem hg) (by simp)]
              exact hch2
            all_goals
              unfold getAt at h
              rw [hg] at h
              simp at h
        · refine ⟨ch, ?_⟩
          have hg2 : (appendAt (j :: prest) node body).get? i =
              body.get? i := by
            rw [appendAt_cons, modifyIdx_get_other hij]
          unfold getAt at h ⊢
          rw [hg2]
          exact h

theorem getAt_appendAt_self {p : List Nat} {body : List CTIWNode}
    {node : CTIWNode} {t : Str} {pr : List (Str × Str)} {c : Option Str}
    {ch : List CTIWNode}
    (h : getAt p body = some (.element t pr c ch)) :
    getAt (p ++ [ch.length]) (appendAt p node body) = some node := by
  induction p generalizing body with
  | nil => simp [getAt] at h
  | cons i rest ih =>
    rcases hg : body.get? i with _ | nd0
    · unfold getAt at h
      rw [hg] at h
      cases rest <;> simp at h
    · cases rest with
      | nil =>
        unfold getAt at h
        rw [hg] at h
        rcases nd0 with ⟨t0, pr0, c0, ch0⟩ | s0 | ⟨n0, v0⟩ | ⟨m0, r0⟩ <;> simp at h
        obtain ⟨h1, h2, h3, h4⟩ := h
        subst h1
        subst h2
        subst h3
        subst h4
        rw [show ((i :: []) ++ [ch0.length] : List Nat) = i :: [ch0.length]
          from rfl]
        rw [getAt_cons_elem (appendAt_get_elem hg) (by simp), getAt_single]
        exact get?_concat_len ch0 node
      | cons k r =>
        rcases nd0 with ⟨t0, pr0, c0, ch0⟩ | s0 | ⟨n0, v0⟩ | ⟨m0, r0⟩
        · rw [getAt_cons_elem hg (by simp)] at h
          rw [show ((i :: k :: r) ++ [ch.length] : List Nat) =
            i :: ((k :: r) ++ [ch.length]) from rfl]
          rw [getAt_cons_elem (appendAt_get_elem hg) (by simp)]
          exact ih h
        all_goals
          unfold getAt at h
          rw [hg] at h
          simp at h

theorem popNonDivides_mem {ind : Nat} {stack : List Frame} {f : Frame}
    (h : f ∈ popNonDivides ind stack) : f ∈ stack := by
  induction stack with
  | nil => simp [popNonDivides] at h
  | cons g rest ih =>
    unfold popNonDivides at h
    split at h
    · split at h
      · exact List.mem_cons_of_mem g (ih h)
      · exact h
    · exact h

theorem frameOK_append {body : List CTIWNode} {node : CTIWNode} {f : Frame}
    (h : frameOK body f) : frameOK (body ++ [node]) f := by
  obtain ⟨he, pr, c, ch, hg⟩ := h
  exact ⟨he, pr, c, ch, getAt_append hg⟩

theorem frameOK_appendAt {body : List CTIWNode} {node : CTIWNode}
    {p : List Nat} {f : Frame} (h : frameOK body f) :
    frameOK (appendAt p node body) f := by
  obtain ⟨he, pr, c, ch, hg⟩ := h
  obtain ⟨ch2, hg2⟩ := @getAt_appendAt_shape f.path body node p _ _ _ _ hg
  exact ⟨he, pr, c, ch2, hg2⟩

/-- The `parseBody` step keeps the parser-state invariant: the forest only
ever grows by `parseStatement` nodes (empty-children elements, specials)
appended at the root or under a sound `divide` frame, and pushed frames
always address the just-appended `divide` element. -/
theorem bodyStep_stateOK (line : Str) (n : Nat) (st : BState)
    (h : stateOK st) : stateOK (bodyStep line n st) := by
  obtain ⟨hok, hfr⟩ := h
  unfold bodyStep
  split
  · exact ⟨hok, hfr⟩
  · dsimp only
    split
    · exact ⟨hok, fun f hf => hfr f (List.mem_of_mem_tail hf)⟩
    · rcases hr : (parseStatement (parseIndentation line).2 n st.metadata).1
        with _ | node
      · exact ⟨hok, hfr⟩
      · have hnode := parseStatement_nodeOK hr
        have hsub : ∀ f ∈ popNonDivides (parseIndentation line).1 st.stack,
            frameOK st.body f :=
          fun f hf => hfr f (popNonDivides_mem hf)
        rcases hs : popNonDivides (parseIndentation line).1 st.stack
          with _ | ⟨f, fs⟩
        · rw [hs] at hsub
          cases node with
          | property name value =>
            exact ⟨hok, fun f' hf' => absurd hf' (List.not_mem_nil f')⟩
          | element t pr c ch =>
            dsimp only
            constructor
            · rw [listOKb_append]
              simp [hok, listOKb, hnode]
            · intro f' hf'
              dsimp only at hf'
              split at hf'
              · rcases List.mem_cons.mp hf' with he | he
                · subst he
                  have hdiv : isDivideElement (.element t pr c ch) = true := by
                    assumption
                  simp only [isDivideElement, decide_eq_true_eq] at hdiv
                  subst hdiv
                  exact ⟨rfl, pr, c, ch, getAt_concat_root st.body _⟩
                · exact absurd he (by simp)
              · exact absurd hf' (by simp)
          | special s =>
            dsimp only
            refine ⟨?_, ?_⟩
            · rw [listOKb_append]
              simp [hok, listOKb, hnode]
            · intro f' hf'
              exact absurd hf' (by simp [isDivideElement])
          | errorNode msg raw =>
            dsimp only
            refine ⟨?_, ?_⟩
            · rw [listOKb_append]
              simp [hok, listOKb, hnode]
            · intro f' hf'
              exact absurd hf' (by simp [isDivideElement])
        · rw [hs] at hsub
          have hfOK : frameOK st.body f := hsub f (by simp)
          obtain ⟨hfe, fpr, fc, fch, hfg⟩ := hfOK
          cases node with
          | property name value =>
            exact ⟨hok, fun f' hf' => hsub f' hf'⟩
          | element t pr c ch =>
            cases hi : (parseIndentation line).1 with
            | zero =>
              dsimp only
              constructor
              · rw [listOKb_append]
                simp [hok, listOKb, hnode]
              · intro f' hf'
                dsimp only at hf'
                split at hf'
                · rcases List.mem_cons.mp hf' with he | he
                  · subst he
                    have hdiv : isDivideElement (.element t pr c ch) = true := by
                      assumption
                    simp only [isDivideElement, decide_eq_true_eq] at hdiv
                    subst hdiv
                    exact ⟨rfl, pr, c, ch, getAt_concat_root st.body _⟩
                  · exact frameOK_append (hsub f' he)
                · exact frameOK_append (hsub f' hf')
            | succ k =>
              dsimp only
              constructor
              · exact appendAt_listOKb hok hnode hfg
              · intro f' hf'
                dsimp only at hf'
                split at hf'
                · rcases List.mem_cons.mp hf' with he | he
                  · subst he
                    have hdiv : isDivideElement (.element t pr c ch) = true := by
                      assumption
                    simp only [isDivideElement, decide_eq_true_eq] at hdiv
                    subst hdiv
                    refine ⟨rfl, pr, c, ch, ?_⟩
                    rw [countAt_getAt hfg]
                    exact getAt_appendAt_self hfg
                  · exact frameOK_appendAt (hsub f' he)
                · exact frameOK_appendAt (hsub f' hf')
          | special s =>
            cases hi : (parseIndentation line).1 with
            | zero =>
              dsimp only
              refine ⟨?_, ?_⟩
              · rw [listOKb_append]
                simp [hok, listOKb, hnode]
              · intro f' hf'
                dsimp only at hf'
                rw [show isDivideElement (.special s) = false from rfl] at hf'
                simp only [Bool.false_eq_true, if_false] at hf'
                exact frameOK_append (hsub f' hf')
            | succ k =>
              dsimp only
              refine ⟨?_, ?_⟩
              · exact appendAt_listOKb hok hnode hfg
              · intro f' hf'
                dsimp only at hf'
                rw [show isDivideElement (.special s) = false from rfl] at hf'
                simp only [Bool.false_eq_true, if_false] at hf'
                exact frameOK_appendAt (hsub f' hf')
          | errorNode msg raw =>
            cases hi : (parseIndentation line).1 with
            | zero =>
              dsimp only
              refine ⟨?_, ?_⟩
              · rw [listOKb_append]
                simp [hok, listOKb, hnode]
              · intro f' hf'
                dsimp only at hf'
                rw [show isDivideElement (.errorNode msg raw) = false
                  from rfl] at hf'
                simp only [Bool.false_eq_true, if_false] at hf'
                exact frameOK_append (hsub f' hf')
            | succ k =>
              dsimp only
              refine ⟨?_, ?_⟩
              · exact appendAt_listOKb hok hnode hfg
              · intro f' hf'
                dsimp only at hf'
                rw [show isDivideElement (.errorNode msg raw) = false
                  from rfl] at hf'
                simp only [Bool.false_eq_true, if_false] at hf'
                exact frameOK_appendAt (hsub f' hf')

theorem parseBodyGo_stateOK (lines : List Str) (n : Nat) (st : BState)
    (h : stateOK st) : stateOK (parseBodyGo lines n st).1 := by
  induction lines generalizing n st with
  | nil => exact h
  | cons line rest ih =>
    unfold parseBodyGo
    split
    · exact h
    · exact ih (n + 1) (bodyStep line n st) (bodyStep_stateOK line n st h)

/-- C10: in every parsed document, only `divide` elements carry children:
the parser pushes only `divide` frames and attaches children only through
an open frame, so every other node's children list is empty, recursively.
(ast.ts is absent from the source tree; `createElement`'s empty initial
children list is modelled from the spec.) -/
theorem c10_theorem (source : Str) :
    listOKb (parseFn source).document.children = true := by
  unfold parseFn
  dsimp only
  refine (parseBodyGo_stateOK _ _ _ ?_).1
  exact ⟨rfl, fun f hf => absurd hf (List.not_mem_nil f)⟩

end CTIW
